import Mathlib

/-!
# Verification of the underrated-fetch cache-and-deduplication engine

Shallow embedding of `src/underrated-fetch.ts` (coalescing cache-fetch
orchestrator, entry lifecycle helpers) and `src/memory-store.ts` (in-memory
LRU store), against the repository's specification.

Modelling conventions:
* JavaScript numbers are modelled by `JSNum` (an integer, or one of the
  non-finite values); wall-clock instants and validated TTLs are integers.
* Callback invocations (`onEvictCallback`, `onHitCallback`, `onMissCallback`)
  are observable events: each store / orchestrator operation returns the list
  of callback invocations it performs, in order.
* The orchestrator's concurrency is modelled by a small-step cooperative
  (event-loop) semantics: each caller and each in-flight computation is a
  task; a task runs atomically between `await` points; the settlement of an
  underlying network call is a macrotask that can only be scheduled when no
  microtask (resumed continuation) is runnable, exactly as in a Node.js
  event loop.
-/

deriving instance DecidableEq for Except

namespace UnderratedFetch

/-- A JavaScript number: a finite value, `Infinity`, `-Infinity` or `NaN`
(finite values are modelled as integers — all the numbers at play are
millisecond counts and sizes). -/
inductive JSNum : Type
  | num (q : ℤ)
  | posInf
  | negInf
  | nan
  deriving DecidableEq, Repr

/-- JavaScript comparison `v <= 0` (false for `NaN`, true for `-Infinity`). -/
def JSNum.leZero : JSNum → Bool
  | .num q => decide (q ≤ 0)
  | .posInf => false
  | .negInf => true
  | .nan => false

/-- `Number.isFinite(v)`. -/
def JSNum.isFinite : JSNum → Bool
  | .num _ => true
  | _ => false

/-- The value of a finite `JSNum` (junk on non-finite values). -/
def JSNum.toQ : JSNum → ℤ
  | .num q => q
  | _ => 0

/-- `validateTimeToLive` from `underrated-fetch.ts`: throws unless the value is
a positive finite number.  `validTimeToLive v = true` iff the check passes,
i.e. `!(v <= 0 || !Number.isFinite(v))` (the `typeof` guard is vacuous here
since `JSNum` only models numbers). -/
def validTimeToLive (v : JSNum) : Bool :=
  !(v.leZero || !v.isFinite)

/-- `CacheEntry<T>` from `types.ts`. -/
structure CacheEntry (T : Type) : Type where
  value : T
  createdAt : ℤ
  expiresAt : ℤ
  deriving DecidableEq, Repr

/-- `isExpired` from `underrated-fetch.ts`: `Date.now() > entry.expiresAt`,
with the current time `now` passed explicitly. -/
def isExpired {T : Type} (now : ℤ) (entry : CacheEntry T) : Bool :=
  decide (now > entry.expiresAt)

/-- `createEntry` from `underrated-fetch.ts`, with `Date.now()` passed
explicitly: `{ value, createdAt: now, expiresAt: now + timeToLive }`. -/
def createEntry {T : Type} (now : ℤ) (value : T) (timeToLive : ℤ) : CacheEntry T :=
  { value := value, createdAt := now, expiresAt := now + timeToLive }

/-- A decoded HTTP response as the orchestrator observes it: the `ok` flag,
status line, the `content-type` header (`none` when absent), and the outcome
of `response.json()` (already determined by the body). -/
structure JSResponse (T : Type) : Type where
  ok : Bool
  status : Nat
  statusText : String
  contentType : Option String
  jsonResult : Except String T
  deriving DecidableEq, Repr

/-- `parseJSON` from `underrated-fetch.ts`: returns the parsed body, or
re-raises a decode failure with the content-type label (the JS
`headers.get('content-type') || 'unknown'` treats an absent header, and also
an empty-string header, as falsy, yielding the literal `unknown`). -/
def parseJSON {T : Type} (r : JSResponse T) : Except String T :=
  match r.jsonResult with
  | .ok v => .ok v
  | .error e =>
    let contentType : String :=
      match r.contentType with
      | some s => if s = "" then "unknown" else s
      | none => "unknown"
    .error ("Failed to parse JSON response. Content-Type: " ++ contentType ++
      ". " ++ "This package only supports JSON responses. " ++
      "Original error: " ++ e)

/-! ## The in-memory LRU store (`memory-store.ts`)

A JavaScript `Map<string, CacheEntry<T>>` is modelled as an association list
with (reachably) unique keys; `Map.set` overwrites in place when the key is
present and appends otherwise, `Map.delete` removes the (first) binding.
`onEvictCallback` invocations are returned as an event list. -/

/-- `Map.get`: first binding for `key`, if any. -/
def mapGet {T : Type} : List (String × T) → String → Option T
  | [], _ => none
  | (k, v) :: rest, key => if k = key then some v else mapGet rest key

/-- `Map.has`. -/
def mapHas {T : Type} (m : List (String × T)) (key : String) : Bool :=
  (mapGet m key).isSome

/-- `Map.set`: overwrite in place if present, else append. -/
def mapSet {T : Type} : List (String × T) → String → T → List (String × T)
  | [], key, v => [(key, v)]
  | (k, w) :: rest, key, v =>
    if k = key then (k, v) :: rest else (k, w) :: mapSet rest key v

/-- `Map.delete`: remove the first binding for `key`. -/
def mapDelete {T : Type} : List (String × T) → String → List (String × T)
  | [], _ => []
  | (k, v) :: rest, key => if k = key then rest else (k, v) :: mapDelete rest key

/-- The state captured by the `createMemoryStore` closure: the configured
capacity (`effectiveMaxSize`), whether an `onEvictCallback` was provided, the
backing `Map`, and the LRU `accessOrder` array. -/
structure MemStore (T : Type) : Type where
  maxSize : Nat
  onEvict : Bool
  cache : List (String × CacheEntry T)
  accessOrder : List String
  deriving DecidableEq, Repr

/-- `updateAccessOrder`: splice out the first occurrence of `key` (if any)
and push it to the most-recently-used end. -/
def updateAccessOrder (order : List String) (key : String) : List String :=
  order.erase key ++ [key]

/-- `Number.isInteger(v)`: finite values are integral in this model. -/
def JSNum.isInteger : JSNum → Bool
  | .num _ => true
  | _ => false

/-- `createMemoryStore`'s option validation and construction: a provided
`maxSize` must be a positive integer, and defaults to 1000. -/
def createMemoryStore (T : Type) (maxSize? : Option JSNum) (onEvict : Bool) :
    Except String (MemStore T) :=
  match maxSize? with
  | some m =>
    if m.leZero || !m.isInteger then .error "maxSize must be a positive integer"
    else .ok ⟨m.toQ.toNat, onEvict, [], []⟩
  | none => .ok ⟨1000, onEvict, [], []⟩

/-- `evictLeastRecentlyUsed`: shift the LRU key off the access order, delete
it from the cache, and invoke `onEvictCallback` (one event) when both the
evicted entry exists and a callback is configured. -/
def evictLRU {T : Type} (s : MemStore T) : MemStore T × List (String × CacheEntry T) :=
  match s.accessOrder with
  | [] => (s, [])
  | lruKey :: rest =>
    let evictedEntry := mapGet s.cache lruKey
    let events : List (String × CacheEntry T) :=
      match evictedEntry with
      | some e => if s.onEvict then [(lruKey, e)] else []
      | none => []
    ({ s with cache := mapDelete s.cache lruKey, accessOrder := rest }, events)

/-- The `while (cache.size >= effectiveMaxSize) evictLeastRecentlyUsed()` loop
of `set`.  When the access order is empty but the cache is still at capacity
the source would loop forever; that state is unreachable under the store
invariant (access order ↔ cache keys), and the model returns the state
unchanged there. -/
def evictWhile {T : Type} : Nat → MemStore T → MemStore T × List (String × CacheEntry T)
  | 0, s => (s, [])
  | fuel + 1, s =>
    if s.maxSize ≤ s.cache.length then
      match s.accessOrder with
      | [] => (s, [])
      | _ :: _ =>
        let p := evictLRU s
        let q := evictWhile fuel p.1
        (q.1, p.2 ++ q.2)
    else (s, [])

/-- The eviction loop of `set`, entered with fuel `accessOrder.length`: each
iteration shortens the access order by one, so this fuel makes the recursion
equivalent to the unbounded `while` (in the empty-access-order-at-capacity
state, where the source would spin forever, both are stuck). -/
def evictLoop {T : Type} (s : MemStore T) : MemStore T × List (String × CacheEntry T) :=
  evictWhile s.accessOrder.length s

/-- The store's `get`: return the entry (promoting it to most-recently-used)
or `undefined`. -/
def MemStore.get {T : Type} (s : MemStore T) (key : String) :
    Option (CacheEntry T) × MemStore T :=
  match mapGet s.cache key with
  | some e => (some e, { s with accessOrder := updateAccessOrder s.accessOrder key })
  | none => (none, s)

/-- The store's `set`: overwrite-and-promote when the key is present;
otherwise evict while at capacity, then insert and promote.  Returns the
`onEvictCallback` invocations performed. -/
def MemStore.set {T : Type} (s : MemStore T) (key : String) (entry : CacheEntry T) :
    MemStore T × List (String × CacheEntry T) :=
  if mapHas s.cache key then
    ({ s with cache := mapSet s.cache key entry,
              accessOrder := updateAccessOrder s.accessOrder key }, [])
  else
    let p := evictLoop s
    ({ p.1 with cache := mapSet p.1.cache key entry,
                accessOrder := updateAccessOrder p.1.accessOrder key }, p.2)

/-- The store's `delete`: drop the binding and its access-order slot. -/
def MemStore.delete {T : Type} (s : MemStore T) (key : String) : MemStore T :=
  { s with cache := mapDelete s.cache key, accessOrder := s.accessOrder.erase key }

/-- The store's `clear`. -/
def MemStore.clear {T : Type} (s : MemStore T) : MemStore T :=
  { s with cache := [], accessOrder := [] }

/-- The store's `has`. -/
def MemStore.hasKey {T : Type} (s : MemStore T) (key : String) : Bool :=
  mapHas s.cache key

/-- One operation of the `CacheStore` interface. -/
inductive StoreOp (T : Type) : Type
  | get (key : String)
  | set (key : String) (entry : CacheEntry T)
  | delete (key : String)
  | clear
  | has (key : String)

/-- Apply one interface operation, returning the new store state and the
`onEvictCallback` invocations it performed. -/
def applyOp {T : Type} (s : MemStore T) : StoreOp T → MemStore T × List (String × CacheEntry T)
  | .get key => ((s.get key).2, [])
  | .set key entry => s.set key entry
  | .delete key => (s.delete key, [])
  | .clear => (s.clear, [])
  | .has _ => (s, [])

/-- Apply a sequence of interface operations. -/
def applyOps {T : Type} (s : MemStore T) (ops : List (StoreOp T)) : MemStore T :=
  ops.foldl (fun s op => (applyOp s op).1) s

/-- The store invariant: the access order is a duplicate-free enumeration of
exactly the cached keys. -/
def MemStore.Inv {T : Type} (s : MemStore T) : Prop :=
  (s.cache.map Prod.fst).Perm s.accessOrder ∧ s.accessOrder.Nodup

/-! ## The coalescing cache-fetch orchestrator (`underrated-fetch.ts`)

`cachedFetch` is embedded as a small-step cooperative semantics.  Each call
in progress (a *caller*) and each in-flight network computation (a *flight*,
the IIFE passed to `inFlightRequests.set`) is a task; a task step is the
synchronous segment between two `await` points, executed atomically, exactly
as on the Node.js event loop.  The settlement of an underlying `fetch` call
is a macrotask: it can be scheduled only when no microtask (no resumed
continuation) is runnable.  Hit/miss/evict callback invocations are recorded
in an event log. -/

/-- The errors a call can reject with: the synchronous TTL validation error,
the `HTTP ${status}: ${statusText}` error for a non-ok response, a rejection
of the underlying `fetch` itself, and a JSON decode failure. -/
inductive FetchError : Type
  | validation (msg : String)
  | http (status : Nat) (statusText : String)
  | network (msg : String)
  | decode (msg : String)
  deriving DecidableEq, Repr

/-- Outcome of an underlying `fetch` call, chosen by the environment at
delivery time: a transport-level rejection, or a settled response. -/
inductive NetOutcome (T : Type) : Type
  | netFail (msg : String)
  | resp (r : JSResponse T)
  deriving DecidableEq, Repr

/-- `FetchOptions`: the `RequestInit` method plus the optional per-request
`timeToLive` override (other transport options play no role here). -/
structure FetchInit : Type where
  timeToLive : Option JSNum
  method : Option String
  deriving DecidableEq, Repr

/-- The configuration captured by the `createCachedFetch` closure after
construction: the validated default TTL, the key-derivation function
(`generateKey`'s URL parsing is platform plumbing, modelled as an injected
function per the spec's external-collaborator contract), the optional
`shouldCache` predicate, and whether hit/miss observers were provided. -/
structure OrchOptions (T : Type) : Type where
  defaultTimeToLive : ℤ
  genKey : String → String
  shouldCache : Option (T → Bool)
  onHit : Bool
  onMiss : Bool

/-- `createCachedFetch`'s fail-fast validation of the default TTL. -/
def createCachedFetch (T : Type) (defaultTimeToLive : JSNum)
    (genKey : String → String) (shouldCache : Option (T → Bool))
    (onHit onMiss : Bool) : Except String (OrchOptions T) :=
  if validTimeToLive defaultTimeToLive then
    .ok ⟨defaultTimeToLive.toQ, genKey, shouldCache, onHit, onMiss⟩
  else .error "timeToLive must be a positive finite number"

/-- Observable callback invocations, in order. -/
inductive OrchEvent (T : Type) : Type
  | hit (key : String)
  | miss (key : String)
  | evict (key : String) (entry : CacheEntry T)
  deriving DecidableEq, Repr

/-- Where a caller stands, between `await` points of `cachedFetch`:
* `start`: the call is issued but its body has not yet run;
* `awaitNetDirect` / `afterNetDirect`: the non-GET path, suspended at /
  resumed from its own `await fetch`;
* `afterGet`: resumed from `await store.get` inside `getValidEntry`, with
  the entry snapshot that `get` returned;
* `afterDelete`: resumed from `await store.delete` of an expired entry;
* `joined`: awaiting the shared in-flight promise of flight `fid`;
* `done`: the call's promise has settled. -/
inductive CallerPhase (T : Type) : Type
  | start (url : String) (init : FetchInit)
  | awaitNetDirect (url : String) (init : FetchInit)
  | afterNetDirect (o : NetOutcome T)
  | afterGet (key : String) (ttl : ℤ) (url : String) (init : FetchInit)
      (snapshot : Option (CacheEntry T))
  | afterDelete (key : String) (ttl : ℤ) (url : String) (init : FetchInit)
  | joined (fid : Nat)
  | done (r : Except FetchError T)
  deriving DecidableEq, Repr

/-- Where an in-flight computation (the IIFE) stands:
`awaitFetch` (suspended at `await fetch`), `afterFetch` (resumed with the
settled outcome), `awaitJson` (suspended at `await response.json()`),
`afterSet` (suspended at `await store.set`), `settled` (the shared promise
has settled; the `finally` cleanup has run). -/
inductive FlightPhase (T : Type) : Type
  | awaitFetch
  | afterFetch (o : NetOutcome T)
  | awaitJson (r : JSResponse T)
  | afterSet (v : T)
  | settled (r : Except FetchError T)
  deriving DecidableEq, Repr

/-- One in-flight computation: its cache key, the originating call's TTL and
request, and its phase. -/
structure FlightRec (T : Type) : Type where
  key : String
  ttl : ℤ
  url : String
  init : FetchInit
  phase : FlightPhase T
  deriving DecidableEq, Repr

/-- The global state: orchestrator configuration, the wall clock, the store,
the `inFlightRequests` map (key to flight index), the flights, the callers,
the number of times the network producer has been invoked, and the callback
event log. -/
structure Config (T : Type) : Type where
  opts : OrchOptions T
  now : ℤ
  mem : MemStore T
  inFlight : List (String × Nat)
  flights : List (FlightRec T)
  callers : List (CallerPhase T)
  netCount : Nat
  events : List (OrchEvent T)

/-- JavaScript's `toUpperCase` on the (ASCII) method string, modelled on the
character list. -/
def jsToUpper (s : String) : String := ⟨s.data.map Char.toUpper⟩

/-- Result of the non-GET path once its own `fetch` settles: reject on
transport failure, reject `HTTP status` on a non-ok response, else decode. -/
def directResult {T : Type} (o : NetOutcome T) : Except FetchError T :=
  match o with
  | .netFail msg => .error (.network msg)
  | .resp r =>
    if !r.ok then .error (.http r.status r.statusText)
    else
      match parseJSON r with
      | .ok v => .ok v
      | .error m => .error (.decode m)

/-- Whether a caller has a runnable microtask continuation. -/
def callerRunnable {T : Type} (flights : List (FlightRec T)) : CallerPhase T → Bool
  | .start _ _ => true
  | .awaitNetDirect _ _ => false
  | .afterNetDirect _ => true
  | .afterGet _ _ _ _ _ => true
  | .afterDelete _ _ _ _ => true
  | .joined fid =>
    match flights.get? fid with
    | some fl =>
      match fl.phase with
      | .settled _ => true
      | _ => false
    | none => false
  | .done _ => false

/-- Whether a flight has a runnable microtask continuation. -/
def flightRunnable {T : Type} : FlightPhase T → Bool
  | .afterFetch _ => true
  | .awaitJson _ => true
  | .afterSet _ => true
  | _ => false

/-- Whether any microtask is runnable (network settlements, being macrotasks,
must wait until this is false). -/
def hasRunnable {T : Type} (c : Config T) : Bool :=
  c.callers.any (callerRunnable c.flights) ||
    c.flights.any (fun f => flightRunnable f.phase)

/-- The cache-miss tail of `cachedFetch`, run when `getValidEntry` has
resolved to `undefined`: look up the in-flight map and join, or else invoke
the miss observer, start the fetch (the IIFE body runs synchronously up to
`await fetch`, so the network producer is invoked), publish the in-flight
entry, and return the shared promise — all in this same synchronous segment,
before any other task can run. -/
def missOriginate {T : Type} (c : Config T) (i : Nat) (key : String) (ttl : ℤ)
    (url : String) (init : FetchInit) : Config T :=
  match mapGet c.inFlight key with
  | some fid => { c with callers := c.callers.set i (.joined fid) }
  | none =>
    let fid := c.flights.length
    { c with
      callers := c.callers.set i (.joined fid)
      flights := c.flights ++ [⟨key, ttl, url, init, .awaitFetch⟩]
      inFlight := mapSet c.inFlight key fid
      netCount := c.netCount + 1
      events := if c.opts.onMiss then c.events ++ [.miss key] else c.events }

/-- One microtask step of caller `i`; `none` when the caller has no runnable
continuation (or `i` is out of range). -/
def callerStep {T : Type} (c : Config T) (i : Nat) : Option (Config T) :=
  match c.callers.get? i with
  | none => none
  | some ph =>
    match ph with
    | .start url init =>
      match init.timeToLive with
      | some t =>
        if !validTimeToLive t then
          -- validateTimeToLive throws synchronously, before the method
          -- classification, the store lookup and the in-flight lookup
          some { c with callers := c.callers.set i (.done (.error
                  (.validation "timeToLive must be a positive finite number"))) }
        else some (startClassify c i url init t.toQ)
      | none => some (startClassify c i url init c.opts.defaultTimeToLive)
    | .afterGet key ttl url init snap =>
      match snap with
      | some entry =>
        if isExpired c.now entry then
          -- getValidEntry: delete the expired entry (`await store.delete`)
          some { c with mem := c.mem.delete key,
                        callers := c.callers.set i (.afterDelete key ttl url init) }
        else
          some { c with
            events := if c.opts.onHit then c.events ++ [.hit key] else c.events,
            callers := c.callers.set i (.done (.ok entry.value)) }
      | none => some (missOriginate c i key ttl url init)
    | .afterDelete key ttl url init => some (missOriginate c i key ttl url init)
    | .afterNetDirect o =>
      some { c with callers := c.callers.set i (.done (directResult o)) }
    | .joined fid =>
      match c.flights.get? fid with
      | some fl =>
        match fl.phase with
        | .settled r => some { c with callers := c.callers.set i (.done r) }
        | _ => none
      | none => none
    | _ => none
where
  -- The segment of `cachedFetch` after TTL extraction and validation:
  -- classify by method (non-GET calls invoke their own `fetch` and never
  -- touch the store, the in-flight map or the observers), else derive the
  -- key and run `store.get` (whose body executes synchronously before the
  -- caller suspends on its promise).
  startClassify (c : Config T) (i : Nat) (url : String) (init : FetchInit)
      (ttl : ℤ) : Config T :=
    let method := (init.method.map jsToUpper).getD "GET"
    if method ≠ "GET" then
      { c with callers := c.callers.set i (.awaitNetDirect url init),
               netCount := c.netCount + 1 }
    else
      let key := c.opts.genKey url
      let p := c.mem.get key
      { c with mem := p.2,
               callers := c.callers.set i (.afterGet key ttl url init p.1) }

/-- Settle flight `j` with result `r`: the `finally` block deletes the
in-flight entry in the same synchronous segment in which the shared promise
settles, on success and failure alike. -/
def settleFlight {T : Type} (c : Config T) (j : Nat) (fl : FlightRec T)
    (r : Except FetchError T) : Config T :=
  { c with flights := c.flights.set j { fl with phase := .settled r },
           inFlight := mapDelete c.inFlight fl.key }

/-- One microtask step of flight `j`; `none` when it has no runnable
continuation. -/
def flightStep {T : Type} (c : Config T) (j : Nat) : Option (Config T) :=
  match c.flights.get? j with
  | none => none
  | some fl =>
    match fl.phase with
    | .afterFetch o =>
      match o with
      | .netFail msg => some (settleFlight c j fl (.error (.network msg)))
      | .resp r =>
        if !r.ok then some (settleFlight c j fl (.error (.http r.status r.statusText)))
        else some { c with flights := c.flights.set j { fl with phase := .awaitJson r } }
    | .awaitJson r =>
      match parseJSON r with
      | .error m => some (settleFlight c j fl (.error (.decode m)))
      | .ok v =>
        let shouldCacheResult :=
          match c.opts.shouldCache with
          | some pred => pred v
          | none => true
        if shouldCacheResult then
          -- `await store.set(key, createEntry(data, timeToLive))`: the
          -- store's set body (evictions included) runs synchronously
          let p := c.mem.set fl.key (createEntry c.now v fl.ttl)
          some { c with mem := p.1,
                        events := c.events ++ p.2.map (fun kv => .evict kv.1 kv.2),
                        flights := c.flights.set j { fl with phase := .afterSet v } }
        else some (settleFlight c j fl (.ok v))
    | .afterSet v => some (settleFlight c j fl (.ok v))
    | _ => none

/-- A scheduling decision: run a caller microtask, run a flight microtask, or
deliver the settlement of an underlying `fetch` (a macrotask, with the
environment choosing the outcome). -/
inductive Choice (T : Type) : Type
  | caller (i : Nat)
  | flight (j : Nat)
  | deliverFlight (j : Nat) (o : NetOutcome T)
  | deliverCaller (i : Nat) (o : NetOutcome T)

/-- One step of the event loop.  Macrotask deliveries are only schedulable
when no microtask is runnable. -/
def step {T : Type} (c : Config T) : Choice T → Option (Config T)
  | .caller i => callerStep c i
  | .flight j => flightStep c j
  | .deliverFlight j o =>
    if hasRunnable c then none
    else
      match c.flights.get? j with
      | some fl =>
        match fl.phase with
        | .awaitFetch =>
          some { c with flights := c.flights.set j { fl with phase := .afterFetch o } }
        | _ => none
      | none => none
  | .deliverCaller i o =>
    if hasRunnable c then none
    else
      match c.callers.get? i with
      | some ph =>
        match ph with
        | .awaitNetDirect _ _ =>
          some { c with callers := c.callers.set i (.afterNetDirect o) }
        | _ => none
      | none => none

/-- Run a schedule; invalid decisions are skipped. -/
def run {T : Type} (c : Config T) (sched : List (Choice T)) : Config T :=
  sched.foldl (fun c ch => (step c ch).getD c) c

/-- A caller phase that has settled. -/
def CallerPhase.isDone {T : Type} : CallerPhase T → Bool
  | .done _ => true
  | _ => false

/-- A well-formed deduplicable request: any per-request TTL override is
valid, and the method classifies as `GET`. -/
def goodInit (init : FetchInit) : Bool :=
  (match init.timeToLive with
   | some t => validTimeToLive t
   | none => true) &&
  decide ((init.method.map jsToUpper).getD "GET" = "GET")

/-- In a burst of concurrent GET callers for key `k` with no pre-existing
entry: a caller that has not yet joined or originated is either still at
`start`, or suspended after a `store.get` that returned no entry. -/
def C1CallerEarly (T : Type) (k url : String) (ph : CallerPhase T) : Prop :=
  (∃ init, goodInit init = true ∧ ph = CallerPhase.start url init) ∨
  (∃ ttl init, ph = CallerPhase.afterGet k ttl url init none)

/-- Global invariant for N concurrent deduplicable calls for the same key
`k` (derived from `url`), starting from a state with no entry and nothing in
flight for `k`.  The execution is always in one of four phases:
* no flight yet: nothing in flight, producer never invoked, callers early;
* one flight awaiting its `fetch`: in-flight table publishes it, the
  producer has been invoked exactly once, callers are early or joined;
* the flight is past delivery (which required quiescence, so every caller
  had already joined) and not yet settled;
* the flight has settled with outcome `r`: the in-flight entry is gone,
  callers are joined or done with exactly `r`, and on failure no entry for
  `k` was stored. -/
def C1Inv (T : Type) (k url : String) (c : Config T) : Prop :=
  c.opts.genKey url = k ∧
  ((c.flights = [] ∧ c.inFlight = [] ∧ c.netCount = 0 ∧
      mapGet c.mem.cache k = none ∧
      ∀ ph ∈ c.callers, C1CallerEarly T k url ph) ∨
   (∃ fl, c.flights = [fl] ∧ fl.key = k ∧ fl.phase = FlightPhase.awaitFetch ∧
      c.inFlight = [(k, 0)] ∧ c.netCount = 1 ∧ mapGet c.mem.cache k = none ∧
      ∀ ph ∈ c.callers, C1CallerEarly T k url ph ∨ ph = CallerPhase.joined 0) ∨
   (∃ fl, c.flights = [fl] ∧ fl.key = k ∧
      ((∃ o, fl.phase = FlightPhase.afterFetch o ∧ mapGet c.mem.cache k = none) ∨
       (∃ r, fl.phase = FlightPhase.awaitJson r ∧ mapGet c.mem.cache k = none) ∨
       (∃ v, fl.phase = FlightPhase.afterSet v)) ∧
      c.inFlight = [(k, 0)] ∧ c.netCount = 1 ∧
      ∀ ph ∈ c.callers, ph = CallerPhase.joined 0) ∨
   (∃ fl r, c.flights = [fl] ∧ fl.key = k ∧ fl.phase = FlightPhase.settled r ∧
      c.inFlight = [] ∧ c.netCount = 1 ∧
      (∀ e, r = Except.error e → mapGet c.mem.cache k = none) ∧
      ∀ ph ∈ c.callers, ph = CallerPhase.joined 0 ∨ ph = CallerPhase.done r))

/-! ### Lemmas about the map and access-order primitives -/

theorem mapGet_isSome_iff {T : Type} (m : List (String × T)) (k : String) :
    (mapGet m k).isSome = true ↔ k ∈ m.map Prod.fst := by
  induction m with
  | nil => simp [mapGet]
  | cons p rest ih =>
    obtain ⟨k', v⟩ := p
    by_cases h : k' = k
    · subst h
      simp [mapGet]
    · simp [mapGet, h, ih, Ne.symm h]

theorem mapHas_iff {T : Type} (m : List (String × T)) (k : String) :
    mapHas m k = true ↔ k ∈ m.map Prod.fst := by
  rw [mapHas, mapGet_isSome_iff]

theorem mapGet_eq_none_iff {T : Type} (m : List (String × T)) (k : String) :
    mapGet m k = none ↔ k ∉ m.map Prod.fst := by
  rw [← mapGet_isSome_iff, Option.isSome_iff_exists]
  cases mapGet m k <;> simp

theorem mapSet_keys_of_has {T : Type} (m : List (String × T)) (k : String) (v : T)
    (h : mapHas m k = true) : (mapSet m k v).map Prod.fst = m.map Prod.fst := by
  induction m with
  | nil => simp [mapHas, mapGet] at h
  | cons p rest ih =>
    obtain ⟨k', w⟩ := p
    by_cases hk : k' = k
    · simp [mapSet, hk]
    · simp only [mapHas, mapGet, hk, if_false] at h
      simp [mapSet, hk, ih h]

theorem mapSet_keys_of_not_has {T : Type} (m : List (String × T)) (k : String) (v : T)
    (h : mapHas m k = false) : (mapSet m k v).map Prod.fst = m.map Prod.fst ++ [k] := by
  induction m with
  | nil => simp [mapSet]
  | cons p rest ih =>
    obtain ⟨k', w⟩ := p
    by_cases hk : k' = k
    · simp [mapHas, mapGet, hk] at h
    · simp only [mapHas, mapGet, hk, if_false] at h
      simp [mapSet, hk, ih h]

theorem mapDelete_keys {T : Type} (m : List (String × T)) (k : String) :
    (mapDelete m k).map Prod.fst = (m.map Prod.fst).erase k := by
  induction m with
  | nil => simp [mapDelete]
  | cons p rest ih =>
    obtain ⟨k', w⟩ := p
    by_cases hk : k' = k
    · simp [mapDelete, hk, List.erase_cons]
    · simp [mapDelete, hk, List.erase_cons, ih]

theorem mapGet_mapSet_self {T : Type} (m : List (String × T)) (k : String) (v : T) :
    mapGet (mapSet m k v) k = some v := by
  induction m with
  | nil => simp [mapSet, mapGet]
  | cons p rest ih =>
    obtain ⟨k', w⟩ := p
    by_cases hk : k' = k <;> simp [mapSet, mapGet, hk, ih]

theorem mapGet_mapSet_ne {T : Type} (m : List (String × T)) (k k' : String) (v : T)
    (h : k' ≠ k) : mapGet (mapSet m k v) k' = mapGet m k' := by
  induction m with
  | nil => simp [mapSet, mapGet, Ne.symm h]
  | cons p rest ih =>
    obtain ⟨k'', w⟩ := p
    by_cases hk : k'' = k
    · subst hk
      simp [mapSet, mapGet, Ne.symm h]
    · simp [mapSet, mapGet, hk, ih]

theorem mapGet_mapDelete_self {T : Type} (m : List (String × T)) (k : String)
    (hnd : (m.map Prod.fst).Nodup) : mapGet (mapDelete m k) k = none := by
  induction m with
  | nil => simp [mapDelete, mapGet]
  | cons p rest ih =>
    obtain ⟨k', w⟩ := p
    simp only [List.map_cons, List.nodup_cons] at hnd
    by_cases hk : k' = k
    · subst hk
      simp only [mapDelete, if_pos rfl]
      rw [mapGet_eq_none_iff]
      exact hnd.1
    · simp [mapDelete, mapGet, hk, ih hnd.2]

theorem mapGet_mapDelete_ne {T : Type} (m : List (String × T)) (k k' : String)
    (h : k' ≠ k) : mapGet (mapDelete m k) k' = mapGet m k' := by
  induction m with
  | nil => simp [mapDelete]
  | cons p rest ih =>
    obtain ⟨k'', w⟩ := p
    by_cases hk : k'' = k
    · subst hk
      simp [mapDelete, mapGet, Ne.symm h]
    · simp [mapDelete, mapGet, hk, ih]

theorem updateAccessOrder_perm (o : List String) (k : String) (h : k ∈ o) :
    (updateAccessOrder o k).Perm o :=
  (List.perm_append_singleton k (o.erase k)).trans (List.perm_cons_erase h).symm

theorem updateAccessOrder_eq_of_not_mem (o : List String) (k : String)
    (h : k ∉ o) : updateAccessOrder o k = o ++ [k] := by
  rw [updateAccessOrder, List.erase_of_not_mem h]

theorem updateAccessOrder_nodup (o : List String) (k : String) (h : o.Nodup) :
    (updateAccessOrder o k).Nodup := by
  rw [updateAccessOrder]
  refine List.Nodup.append (h.erase k) (List.nodup_singleton k) ?_
  intro a ha hb
  simp only [List.mem_singleton] at hb
  subst hb
  exact (List.Nodup.not_mem_erase h) ha

/-! ### Store invariant lemmas -/

theorem MemStore.Inv.length_eq {T : Type} {s : MemStore T} (h : s.Inv) :
    s.cache.length = s.accessOrder.length := by
  simpa using h.1.length_eq

theorem MemStore.Inv.keys_nodup {T : Type} {s : MemStore T} (h : s.Inv) :
    (s.cache.map Prod.fst).Nodup :=
  h.1.symm.nodup h.2

/-- `get` leaves the cache untouched, preserves the invariant, and promotes a
present key to the most-recently-used end. -/
theorem MemStore.get_spec {T : Type} (s : MemStore T) (key : String) (h : s.Inv) :
    (s.get key).2.cache = s.cache ∧ (s.get key).2.maxSize = s.maxSize ∧
      (s.get key).2.onEvict = s.onEvict ∧ (s.get key).2.Inv ∧
      (s.get key).1 = mapGet s.cache key ∧
      ((mapGet s.cache key).isSome = true →
        (s.get key).2.accessOrder = s.accessOrder.erase key ++ [key]) := by
  rcases hg : mapGet s.cache key with _ | e
  · simp [MemStore.get, hg, h]
  · have hkmem : key ∈ s.cache.map Prod.fst := by
      rw [← mapGet_isSome_iff, hg]
      rfl
    have hko : key ∈ s.accessOrder := h.1.mem_iff.mp hkmem
    refine ⟨by simp [MemStore.get, hg], by simp [MemStore.get, hg],
      by simp [MemStore.get, hg], ?_, by simp [MemStore.get, hg],
      by simp [MemStore.get, hg, updateAccessOrder]⟩
    constructor
    · simp only [MemStore.get, hg]
      exact h.1.trans (updateAccessOrder_perm _ _ hko).symm
    · simp only [MemStore.get, hg]
      exact updateAccessOrder_nodup _ _ h.2

/-- `evictLeastRecentlyUsed` on an invariant-satisfying store with a nonempty
access order: it removes exactly the LRU key, reports it (with its entry) to
`onEvictCallback` when one is configured, and preserves the invariant. -/
theorem evictLRU_spec {T : Type} (s : MemStore T) (lru : String) (rest : List String)
    (h : s.Inv) (ho : s.accessOrder = lru :: rest) :
    ∃ e, mapGet s.cache lru = some e ∧
      evictLRU s = ({ s with cache := mapDelete s.cache lru, accessOrder := rest },
        if s.onEvict then [(lru, e)] else []) ∧
      (evictLRU s).1.Inv ∧
      (evictLRU s).1.cache.length + 1 = s.cache.length := by
  have hmem : lru ∈ s.accessOrder := by
    rw [ho]
    exact List.mem_cons_self _ _
  have hkeys : lru ∈ s.cache.map Prod.fst := h.1.mem_iff.mpr hmem
  have hsome : (mapGet s.cache lru).isSome = true := (mapGet_isSome_iff _ _).mpr hkeys
  rcases hg : mapGet s.cache lru with _ | e
  · rw [hg] at hsome
    exact absurd hsome (by simp)
  refine ⟨e, rfl, ?_, ?_, ?_⟩
  · simp [evictLRU, ho, hg]
  · constructor
    · show ((evictLRU s).1.cache.map Prod.fst).Perm (evictLRU s).1.accessOrder
      simp only [evictLRU, ho, mapDelete_keys]
      have := (h.1.erase lru).trans
        (by rw [ho, List.erase_cons_head] : (s.accessOrder.erase lru).Perm rest)
      simpa using this
    · show (evictLRU s).1.accessOrder.Nodup
      simp only [evictLRU, ho]
      have := h.2
      rw [ho, List.nodup_cons] at this
      exact this.2
  · have hlen : (mapDelete s.cache lru).length + 1 = s.cache.length := by
      have h1 : (mapDelete s.cache lru).length = ((s.cache.map Prod.fst).erase lru).length := by
        rw [← mapDelete_keys]
        simp
      have h2 : ((s.cache.map Prod.fst).erase lru).length + 1 = (s.cache.map Prod.fst).length :=
        by
        rw [List.length_erase_of_mem hkeys]
        have : 1 ≤ (s.cache.map Prod.fst).length := List.length_pos.mpr
          (by intro hemp; rw [hemp] at hkeys; exact List.not_mem_nil _ hkeys)
        omega
      rw [h1, h2, List.length_map]
    simpa [evictLRU, ho] using hlen

/-- Below capacity, the eviction loop does nothing. -/
theorem evictWhile_of_lt {T : Type} (fuel : Nat) (s : MemStore T)
    (h : s.cache.length < s.maxSize) : evictWhile fuel s = (s, []) := by
  cases fuel with
  | zero => rfl
  | succ n => simp [evictWhile, Nat.not_le.mpr h]

theorem evictLoop_of_lt {T : Type} (s : MemStore T)
    (h : s.cache.length < s.maxSize) : evictLoop s = (s, []) :=
  evictWhile_of_lt _ s h

/-- At exactly full capacity (with the invariant and a positive capacity),
the eviction loop performs exactly one eviction: the LRU key. -/
theorem evictLoop_at_cap {T : Type} (s : MemStore T) (h : s.Inv)
    (hpos : 1 ≤ s.maxSize) (hlen : s.cache.length = s.maxSize) :
    ∃ lru rest e, s.accessOrder = lru :: rest ∧ mapGet s.cache lru = some e ∧
      evictLoop s = ({ s with cache := mapDelete s.cache lru, accessOrder := rest },
        if s.onEvict then [(lru, e)] else []) ∧
      (evictLoop s).1.Inv ∧
      (evictLoop s).1.cache.length + 1 = s.maxSize := by
  have horder : s.accessOrder.length = s.maxSize := by rw [← h.length_eq, hlen]
  rcases ho : s.accessOrder with _ | ⟨lru, rest⟩
  · rw [ho] at horder
    simp at horder
    omega
  obtain ⟨e, hg, heq, hinv1, hlen1⟩ := evictLRU_spec s lru rest h ho
  have hlt : (evictLRU s).1.cache.length < s.maxSize := by omega
  have hrest : rest.length = (evictLRU s).1.accessOrder.length := by
    rw [heq]
  have hloop : evictLoop s = ((evictLRU s).1, (evictLRU s).2) := by
    rw [evictLoop, ho]
    show evictWhile (rest.length + 1) s = _
    rw [evictWhile]
    rw [ho]
    simp only [Nat.le_of_eq hlen.symm, if_pos]
    have hms : (evictLRU s).1.maxSize = s.maxSize := by rw [heq]
    have hrec : evictWhile rest.length (evictLRU s).1 = ((evictLRU s).1, []) := by
      rw [hrest]
      exact evictWhile_of_lt _ _ (by rw [hms]; exact hlt)
    simp [hrec]
  refine ⟨lru, rest, e, rfl, hg, ?_, ?_, ?_⟩
  · rw [hloop, heq]
  · rw [hloop]
    exact hinv1
  · rw [hloop]
    rw [hlen] at hlen1
    exact hlen1

/-- Inserting a fresh key (as the tail of `set` does after the eviction loop)
preserves the invariant and grows the cache by one. -/
theorem insert_fresh_inv {T : Type} (s : MemStore T) (key : String) (entry : CacheEntry T)
    (h : s.Inv) (hnot : mapHas s.cache key = false) :
    ({ s with cache := mapSet s.cache key entry,
              accessOrder := updateAccessOrder s.accessOrder key } : MemStore T).Inv ∧
      (mapSet s.cache key entry).length = s.cache.length + 1 := by
  have hkeys : (mapSet s.cache key entry).map Prod.fst = s.cache.map Prod.fst ++ [key] :=
    mapSet_keys_of_not_has _ _ _ hnot
  have hnotk : key ∉ s.cache.map Prod.fst := by
    intro hmem
    rw [(mapHas_iff _ _).mpr hmem] at hnot
    simp at hnot
  have hnoto : key ∉ s.accessOrder := fun hmem => hnotk (h.1.mem_iff.mpr hmem)
  have horder : updateAccessOrder s.accessOrder key = s.accessOrder ++ [key] :=
    updateAccessOrder_eq_of_not_mem _ _ hnoto
  refine ⟨⟨?_, ?_⟩, ?_⟩
  · show ((mapSet s.cache key entry).map Prod.fst).Perm (updateAccessOrder s.accessOrder key)
    rw [hkeys, horder]
    exact h.1.append_right [key]
  · show (updateAccessOrder s.accessOrder key).Nodup
    exact updateAccessOrder_nodup _ _ h.2
  · have := congrArg List.length hkeys
    simpa using this

/-- `set` on a fresh key below capacity: plain insert, no eviction. -/
theorem MemStore.set_fresh_below {T : Type} (s : MemStore T) (key : String)
    (entry : CacheEntry T) (hnot : mapHas s.cache key = false)
    (hlt : s.cache.length < s.maxSize) :
    s.set key entry = ({ s with cache := mapSet s.cache key entry,
                                accessOrder := updateAccessOrder s.accessOrder key }, []) := by
  rw [MemStore.set]
  simp [hnot, evictLoop_of_lt s hlt]

/-- `set` on a fresh key at capacity: evict exactly the LRU key (one
`onEvictCallback` invocation, carrying that key and its pre-eviction entry),
then insert. -/
theorem MemStore.set_fresh_at_cap {T : Type} (s : MemStore T) (key : String)
    (entry : CacheEntry T) (h : s.Inv) (hpos : 1 ≤ s.maxSize)
    (hnot : mapHas s.cache key = false) (hlen : s.cache.length = s.maxSize) :
    ∃ lru rest e, s.accessOrder = lru :: rest ∧ mapGet s.cache lru = some e ∧
      s.set key entry =
        ({ s with cache := mapSet (mapDelete s.cache lru) key entry,
                      accessOrder := updateAccessOrder rest key },
         if s.onEvict then [(lru, e)] else []) := by
  obtain ⟨lru, rest, e, ho, hg, hloop, hinv1, hlen1⟩ := evictLoop_at_cap s h hpos hlen
  refine ⟨lru, rest, e, ho, hg, ?_⟩
  rw [MemStore.set]
  simp [hnot, hloop]

/-- `set` on a present key: overwrite in place and promote, no eviction. -/
theorem MemStore.set_present_spec {T : Type} (s : MemStore T) (key : String)
    (entry : CacheEntry T) (hhas : mapHas s.cache key = true) :
    s.set key entry = ({ s with cache := mapSet s.cache key entry,
                                accessOrder := updateAccessOrder s.accessOrder key }, []) := by
  rw [MemStore.set]
  simp [hhas]

/-- Every store-interface operation preserves the invariant, the
configuration, and the capacity bound. -/
theorem applyOp_preserves {T : Type} (s : MemStore T) (op : StoreOp T)
    (h : s.Inv) (hpos : 1 ≤ s.maxSize) (hlen : s.cache.length ≤ s.maxSize) :
    (applyOp s op).1.Inv ∧ (applyOp s op).1.maxSize = s.maxSize ∧
      (applyOp s op).1.onEvict = s.onEvict ∧
      (applyOp s op).1.cache.length ≤ s.maxSize := by
  cases op with
  | get key =>
    obtain ⟨hc, hm, he, hi, -, -⟩ := MemStore.get_spec s key h
    exact ⟨hi, hm, he, by rw [applyOp, hc]; exact hlen⟩
  | set key entry =>
    rcases hhas : mapHas s.cache key with _ | _
    · rcases Nat.lt_or_ge s.cache.length s.maxSize with hlt | hge
      · have heq := MemStore.set_fresh_below s key entry hhas hlt
        obtain ⟨hinv, hlength⟩ := insert_fresh_inv s key entry h hhas
        rw [applyOp, heq]
        exact ⟨hinv, rfl, rfl, by simpa [hlength] using hlt⟩
      · have hcap : s.cache.length = s.maxSize := Nat.le_antisymm hlen hge
        obtain ⟨lru, rest, e, ho, hg, hloop, hinv1, hlen1⟩ :=
          evictLoop_at_cap s h hpos hcap
        have hnot1 : mapHas (evictLoop s).1.cache key = false := by
          rw [hloop]
          show mapHas (mapDelete s.cache lru) key = false
          rcases hh : mapHas (mapDelete s.cache lru) key with _ | _
          · rfl
          · exfalso
            have hmem := (mapHas_iff _ _).mp hh
            rw [mapDelete_keys] at hmem
            have : key ∈ s.cache.map Prod.fst := (List.erase_subset _ _) hmem
            rw [(mapHas_iff _ _).mpr this] at hhas
            simp at hhas
        obtain ⟨hinv2, hlength2⟩ := insert_fresh_inv (evictLoop s).1 key entry hinv1 hnot1
        have hset : s.set key entry =
            ({ (evictLoop s).1 with
                  cache := mapSet (evictLoop s).1.cache key entry,
                  accessOrder := updateAccessOrder (evictLoop s).1.accessOrder key },
              (evictLoop s).2) := by
          rw [MemStore.set]
          simp [hhas]
        rw [applyOp, hset]
        refine ⟨hinv2, ?_, ?_, ?_⟩
        · show (evictLoop s).1.maxSize = s.maxSize
          rw [hloop]
        · show (evictLoop s).1.onEvict = s.onEvict
          rw [hloop]
        · show (mapSet (evictLoop s).1.cache key entry).length ≤ s.maxSize
          omega
    · have heq := MemStore.set_present_spec s key entry hhas
      have hkeys := mapSet_keys_of_has s.cache key entry hhas
      have hkmem : key ∈ s.cache.map Prod.fst := (mapHas_iff _ _).mp hhas
      have hko : key ∈ s.accessOrder := h.1.mem_iff.mp hkmem
      rw [applyOp, heq]
      refine ⟨⟨?_, ?_⟩, rfl, rfl, ?_⟩
      · show ((mapSet s.cache key entry).map Prod.fst).Perm
          (updateAccessOrder s.accessOrder key)
        rw [hkeys]
        exact h.1.trans (updateAccessOrder_perm _ _ hko).symm
      · exact updateAccessOrder_nodup _ _ h.2
      · show (mapSet s.cache key entry).length ≤ s.maxSize
        have := congrArg List.length hkeys
        simp only [List.length_map] at this
        omega
  | delete key =>
    refine ⟨⟨?_, h.2.erase key⟩, rfl, rfl, ?_⟩
    · show ((mapDelete s.cache key).map Prod.fst).Perm (s.accessOrder.erase key)
      rw [mapDelete_keys]
      exact h.1.erase key
    · show (mapDelete s.cache key).length ≤ s.maxSize
      have : (mapDelete s.cache key).length ≤ s.cache.length := by
        have h1 : (mapDelete s.cache key).length =
            ((s.cache.map Prod.fst).erase key).length := by
          rw [← mapDelete_keys]
          simp
        have h2 : ((s.cache.map Prod.fst).erase key).length ≤ s.cache.length := by
          calc ((s.cache.map Prod.fst).erase key).length
              ≤ (s.cache.map Prod.fst).length := List.length_erase_le _ _
            _ = s.cache.length := List.length_map _ _
        omega
      omega
  | clear =>
    refine ⟨⟨?_, ?_⟩, rfl, rfl, ?_⟩
    · show (([] : List (String × CacheEntry T)).map Prod.fst).Perm []
      simp
    · show ([] : List String).Nodup
      simp
    · show ([] : List (String × CacheEntry T)).length ≤ s.maxSize
      simp
  | has key => exact ⟨h, rfl, rfl, hlen⟩

/-- The capacity bound and invariant hold over any operation sequence. -/
theorem applyOps_preserves {T : Type} (s : MemStore T) (ops : List (StoreOp T))
    (h : s.Inv) (hpos : 1 ≤ s.maxSize) (hlen : s.cache.length ≤ s.maxSize) :
    (applyOps s ops).Inv ∧ (applyOps s ops).maxSize = s.maxSize ∧
      (applyOps s ops).cache.length ≤ s.maxSize := by
  induction ops generalizing s with
  | nil => exact ⟨h, rfl, hlen⟩
  | cons op rest ih =>
    obtain ⟨h1, h2, h3, h4⟩ := applyOp_preserves s op h hpos hlen
    have := ih (applyOp s op).1 h1 (by omega) (by omega)
    rw [applyOps] at *
    simp only [List.foldl_cons]
    obtain ⟨i1, i2, i3⟩ := this
    exact ⟨i1, by rw [i2, h2], by rw [h2] at i3; exact i3⟩

/-! ### Small list helpers -/

theorem lt_of_get?_eq_some {α : Type} {l : List α} {i : Nat} {a : α}
    (h : l.get? i = some a) : i < l.length := by
  by_contra hge
  rw [List.get?_eq_none.mpr (Nat.le_of_not_lt hge)] at h
  cases h

theorem get?_set_self {α : Type} (l : List α) (i : Nat) (a : α) (h : i < l.length) :
    (l.set i a).get? i = some a := by
  rw [List.get?_eq_getElem?]
  exact List.getElem?_set_eq_of_lt a h

theorem getElem?_eq_of_get? {α : Type} {l : List α} {i : Nat} {a : α}
    (h : l.get? i = some a) : l[i]? = some a := by
  rw [← List.get?_eq_getElem?]
  exact h

/-! ### Orchestrator step lemmas -/

/-- A non-GET call's first segment: validation passes, the method classifies
as non-deduplicable, so the caller starts its own network call, touching
neither the store, nor the in-flight map, nor the observers. -/
theorem nonGET_start_step {T : Type} (c : Config T) (i : Nat) (url : String)
    (init : FetchInit) (m : String)
    (hc : c.callers.get? i = some (.start url init))
    (hm : init.method = some m) (hng : jsToUpper m ≠ "GET")
    (ht : ∀ t, init.timeToLive = some t → validTimeToLive t = true) :
    callerStep c i = some { c with
      callers := c.callers.set i (.awaitNetDirect url init),
      netCount := c.netCount + 1 } := by
  rcases htt : init.timeToLive with _ | t
  · simp only [callerStep, hc, htt]
    simp only [callerStep.startClassify, hm, Option.map_some', Option.getD_some]
    rw [if_pos hng]
  · have hv := ht t htt
    simp only [callerStep, hc, htt, hv, Bool.not_true, Bool.false_eq_true, if_false]
    simp only [callerStep.startClassify, hm, Option.map_some', Option.getD_some]
    rw [if_pos hng]

/-! ## The claims -/

/-- C7: for every cache entry and every current time, `isExpired` returns
true iff the current time is strictly greater than `expiresAt`; an entry
whose `expiresAt` equals the current time is not yet expired at that
instant. -/
theorem claim_C7 {T : Type} (now : ℤ) (entry : CacheEntry T) :
    (isExpired now entry = true ↔ entry.expiresAt < now) ∧
    isExpired entry.expiresAt entry = false := by
  constructor
  · simp [isExpired]
  · simp [isExpired]

/-- C8: for every response whose body fails to decode as JSON, `parseJSON`
re-raises an error whose message contains the detected content-type label
(trivially so for an empty label), the literal token `unknown` when no
content-type header is available, and the explanation that only JSON
responses are supported. -/
theorem claim_C8 {T : Type} (r : JSResponse T) (e : String)
    (h : r.jsonResult = .error e) :
    ∃ msg, parseJSON r = .error msg ∧
      ("This package only supports JSON responses").data <:+: msg.data ∧
      (∀ ct, r.contentType = some ct → ct.data <:+: msg.data) ∧
      (r.contentType = none → ("unknown").data <:+: msg.data) := by
  rcases hct : r.contentType with _ | ct
  · refine ⟨"Failed to parse JSON response. Content-Type: " ++ "unknown" ++ ". " ++
        "This package only supports JSON responses. " ++ "Original error: " ++ e,
      by simp [parseJSON, h, hct], ?_, ?_, ?_⟩
    · exact ⟨("Failed to parse JSON response. Content-Type: " ++ "unknown" ++ ". ").data,
        (". " ++ "Original error: " ++ e).data, by simp⟩
    · intro ct hcteq
      cases hcteq
    · intro _
      exact ⟨("Failed to parse JSON response. Content-Type: ").data,
        (". " ++ "This package only supports JSON responses. " ++
          "Original error: " ++ e).data, by simp⟩
  · by_cases hemp : ct = ""
    · subst hemp
      refine ⟨"Failed to parse JSON response. Content-Type: " ++ "unknown" ++ ". " ++
          "This package only supports JSON responses. " ++ "Original error: " ++ e,
        by simp [parseJSON, h, hct], ?_, ?_, ?_⟩
      · exact ⟨("Failed to parse JSON response. Content-Type: " ++ "unknown" ++ ". ").data,
          (". " ++ "Original error: " ++ e).data, by simp⟩
      · intro ct' hcteq
        cases hcteq
        exact ⟨[], ("Failed to parse JSON response. Content-Type: " ++ "unknown" ++ ". " ++
          "This package only supports JSON responses. " ++ "Original error: " ++ e).data,
          by simp⟩
      · intro hn
        cases hn
    · refine ⟨"Failed to parse JSON response. Content-Type: " ++ ct ++ ". " ++
          "This package only supports JSON responses. " ++ "Original error: " ++ e,
        by simp [parseJSON, h, hct, hemp], ?_, ?_, ?_⟩
      · exact ⟨("Failed to parse JSON response. Content-Type: " ++ ct ++ ". ").data,
          (". " ++ "Original error: " ++ e).data, by simp⟩
      · intro ct' hcteq
        cases hcteq
        exact ⟨("Failed to parse JSON response. Content-Type: ").data,
          (". " ++ "This package only supports JSON responses. " ++
            "Original error: " ++ e).data, by simp⟩
      · intro hn
        cases hn

/-- C5: a call carrying a `timeToLive` override that is not a positive finite
number fails synchronously, in its very first segment, with the validation
error — before any network activity (`netCount` unchanged), before any store
access (`mem` unchanged), without touching the in-flight table or the
observers; all other callers, and hence the orchestrator itself, are
untouched. -/
theorem claim_C5 {T : Type} (c : Config T) (i : Nat) (url : String)
    (init : FetchInit) (t : JSNum)
    (hc : c.callers.get? i = some (.start url init))
    (ht : init.timeToLive = some t)
    (hbad : validTimeToLive t = false) :
    ∃ c', callerStep c i = some c' ∧
      c'.callers = c.callers.set i (.done (.error
        (.validation "timeToLive must be a positive finite number"))) ∧
      c'.mem = c.mem ∧ c'.inFlight = c.inFlight ∧ c'.netCount = c.netCount ∧
      c'.events = c.events ∧ c'.flights = c.flights ∧
      (∀ j, j ≠ i → c'.callers.get? j = c.callers.get? j) := by
  refine ⟨{ c with callers := c.callers.set i (.done (.error
      (.validation "timeToLive must be a positive finite number"))) },
    ?_, rfl, rfl, rfl, rfl, rfl, rfl, ?_⟩
  · simp [callerStep, getElem?_eq_of_get? hc, ht, hbad]
  · intro j hj
    exact List.get?_set_ne _ _ (fun hij => hj hij.symm)

/-- C10: per-call TTL validation precedes the method classification — a
non-GET call with an invalid override still fails with the validation error
and performs no network call at all. -/
theorem claim_C10 {T : Type} (c : Config T) (i : Nat) (url : String)
    (init : FetchInit) (t : JSNum) (m : String)
    (hc : c.callers.get? i = some (.start url init))
    (hm : init.method = some m) (hng : jsToUpper m ≠ "GET")
    (ht : init.timeToLive = some t)
    (hbad : validTimeToLive t = false) :
    ∃ c', callerStep c i = some c' ∧
      c'.callers = c.callers.set i (.done (.error
        (.validation "timeToLive must be a positive finite number"))) ∧
      c'.netCount = c.netCount ∧ c'.mem = c.mem ∧ c'.inFlight = c.inFlight := by
  refine ⟨{ c with callers := c.callers.set i (.done (.error
      (.validation "timeToLive must be a positive finite number"))) },
    ?_, rfl, rfl, rfl, rfl⟩
  simp [callerStep, getElem?_eq_of_get? hc, ht, hbad]

/-- C6: a non-GET call bypasses the cache store, the in-flight table and both
observer callbacks: its first segment starts its own network call leaving
`mem`, `inFlight` and `events` untouched; once its own `fetch` settles it
resolves to its own independently decoded result; and a concurrent identical
non-GET call still performs its own network call. -/
theorem claim_C6 {T : Type} (c : Config T) (i : Nat) (url : String)
    (init : FetchInit) (m : String)
    (hc : c.callers.get? i = some (.start url init))
    (hm : init.method = some m) (hng : jsToUpper m ≠ "GET")
    (ht : ∀ t, init.timeToLive = some t → validTimeToLive t = true) :
    ∃ c', callerStep c i = some c' ∧
      c'.mem = c.mem ∧ c'.inFlight = c.inFlight ∧ c'.events = c.events ∧
      c'.flights = c.flights ∧ c'.netCount = c.netCount + 1 ∧
      c'.callers = c.callers.set i (.awaitNetDirect url init) ∧
      (∀ o, hasRunnable c' = false →
        step c' (.deliverCaller i o) =
          some { c' with callers := c'.callers.set i (.afterNetDirect o) } ∧
        callerStep { c' with callers := c'.callers.set i (.afterNetDirect o) } i =
          some { c' with callers := c'.callers.set i (.done (directResult o)) }) ∧
      (∀ j, j ≠ i → c.callers.get? j = some (.start url init) →
        ∃ c2, callerStep c' j = some c2 ∧ c2.netCount = c.netCount + 2 ∧
          c2.mem = c.mem ∧ c2.inFlight = c.inFlight ∧ c2.events = c.events) := by
  have hstep := nonGET_start_step c i url init m hc hm hng ht
  have hlen : i < c.callers.length := lt_of_get?_eq_some hc
  refine ⟨_, hstep, rfl, rfl, rfl, rfl, rfl, rfl, ?_, ?_⟩
  · intro o hq
    have hget : (c.callers.set i (.awaitNetDirect url init)).get? i =
        some (.awaitNetDirect url init) := get?_set_self _ _ _ (by simpa using hlen)
    have hget2 : (c.callers.set i (.afterNetDirect o)).get? i =
        some (.afterNetDirect o) := get?_set_self _ _ _ (by simpa using hlen)
    constructor
    · simp [step, hq, getElem?_eq_of_get? hget]
    · simp [callerStep, List.set_set, getElem?_eq_of_get? hget2]
  · intro j hj hcj
    have hcj' : (c.callers.set i (.awaitNetDirect url init)).get? j =
        some (.start url init) := by
      rw [List.get?_set_ne _ _ (fun hij => hj hij.symm)]
      exact hcj
    have hstep2 := nonGET_start_step
      { c with callers := c.callers.set i (.awaitNetDirect url init),
               netCount := c.netCount + 1 } j url init m hcj' hm hng ht
    exact ⟨_, hstep2, rfl, rfl, rfl, rfl⟩

/-- C4: an entry found expired at lookup time is first deleted from the
store — without invoking the hit observer and without returning the stale
value — and the call then proceeds exactly as a cache miss (joining or
originating an in-flight computation); a present non-expired entry is
returned at once with the hit observer invoked and no network call. -/
theorem claim_C4 {T : Type} (c : Config T) (i : Nat) (key url : String)
    (ttl : ℤ) (init : FetchInit) (entry : CacheEntry T)
    (hc : c.callers.get? i = some (.afterGet key ttl url init (some entry))) :
    (isExpired c.now entry = true →
      ∃ c', callerStep c i = some c' ∧
        c'.mem = c.mem.delete key ∧
        c'.callers = c.callers.set i (.afterDelete key ttl url init) ∧
        c'.events = c.events ∧ c'.netCount = c.netCount ∧
        c'.inFlight = c.inFlight ∧
        callerStep c' i = some (missOriginate c' i key ttl url init) ∧
        ∃ fid, (missOriginate c' i key ttl url init).callers.get? i =
          some (.joined fid)) ∧
    (isExpired c.now entry = false → c.opts.onHit = true →
      ∃ c', callerStep c i = some c' ∧
        c'.callers = c.callers.set i (.done (.ok entry.value)) ∧
        c'.events = c.events ++ [.hit key] ∧
        c'.netCount = c.netCount ∧ c'.mem = c.mem ∧ c'.inFlight = c.inFlight) := by
  have hlen : i < c.callers.length := lt_of_get?_eq_some hc
  constructor
  · intro hexp
    refine ⟨{ c with
        mem := c.mem.delete key,
        callers := c.callers.set i (.afterDelete key ttl url init) },
      ?_, rfl, rfl, rfl, rfl, rfl, ?_, ?_⟩
    · simp [callerStep, getElem?_eq_of_get? hc, hexp]
    · have hget : (c.callers.set i (.afterDelete key ttl url init)).get? i =
          some (.afterDelete key ttl url init) := get?_set_self _ _ _ (by simpa using hlen)
      simp [callerStep, getElem?_eq_of_get? hget]
    · rcases hifl : mapGet c.inFlight key with _ | fid
      · refine ⟨c.flights.length, ?_⟩
        simp only [missOriginate, hifl]
        exact get?_set_self _ _ _ (by simpa using hlen)
      · refine ⟨fid, ?_⟩
        simp only [missOriginate, hifl]
        exact get?_set_self _ _ _ (by simpa using hlen)
  · intro hfresh hhit
    refine ⟨{ c with
        events := c.events ++ [.hit key],
        callers := c.callers.set i (.done (.ok entry.value)) },
      ?_, rfl, rfl, rfl, rfl, rfl⟩
    simp [callerStep, getElem?_eq_of_get? hc, hfresh, hhit]

/-- C9: `delete`, `clear`, `get` and `has` never invoke `onEvictCallback`
(their event lists are empty), `set` on an already-present key evicts
nothing, and consequently the orchestrator's lazy deletion of an expired
entry (the `afterGet`-expired segment, which calls `store.delete`) emits no
eviction event either — the callback fires only through capacity eviction
inside `set`. -/
theorem claim_C9 {T : Type} (s : MemStore T) (key : String) (entry : CacheEntry T) :
    (applyOp s (.delete key)).2 = [] ∧
    (applyOp s .clear).2 = [] ∧
    (applyOp s (.get key)).2 = [] ∧
    (applyOp s (.has key)).2 = [] ∧
    (mapHas s.cache key = true → (s.set key entry).2 = []) ∧
    (∀ (c : Config T) (i : Nat) (ttl : ℤ) (url : String) (init : FetchInit)
        (e : CacheEntry T),
      c.callers.get? i = some (.afterGet key ttl url init (some e)) →
      isExpired c.now e = true →
      ∃ c', callerStep c i = some c' ∧ c'.events = c.events ∧
        c'.mem = c.mem.delete key) := by
  refine ⟨rfl, rfl, rfl, rfl, ?_, ?_⟩
  · intro hhas
    rw [MemStore.set_present_spec s key entry hhas]
  · intro c i ttl url init e hc hexp
    refine ⟨{ c with
        mem := c.mem.delete key,
        callers := c.callers.set i (.afterDelete key ttl url init) },
      ?_, rfl, rfl⟩
    simp [callerStep, getElem?_eq_of_get? hc, hexp]

/-- C2: the in-memory store with capacity `k ≥ 1`, started from any
invariant-satisfying state within capacity, (1) never holds more than `k`
keys under any sequence of interface operations; (2) `set` of a fresh key at
capacity evicts exactly the least-recently-used key — the head of the access
order — invoking `onEvictCallback` once with that key and its pre-insertion
entry (the eviction thus acts on the store before the new key is inserted),
after which the evicted key is gone and the new key is visible; (3) `set` of
a present key overwrites the entry and promotes the key to
most-recently-used with no eviction; and (4) `get` of a present key promotes
it to most-recently-used, maintaining the access order. -/
theorem claim_C2 {T : Type} (s : MemStore T) (k : Nat) (key : String)
    (entry : CacheEntry T) (hmax : s.maxSize = k) (hk : 1 ≤ k)
    (hinv : s.Inv) (hlen : s.cache.length ≤ k) :
    (∀ ops : List (StoreOp T), (applyOps s ops).cache.length ≤ k) ∧
    (mapHas s.cache key = false → k ≤ s.cache.length → s.onEvict = true →
      ∃ lru rest e, s.accessOrder = lru :: rest ∧ mapGet s.cache lru = some e ∧
        (s.set key entry).2 = [(lru, e)] ∧ lru ≠ key ∧
        mapGet (s.set key entry).1.cache lru = none ∧
        mapGet (s.set key entry).1.cache key = some entry ∧
        (s.set key entry).1.cache.length ≤ k) ∧
    (mapHas s.cache key = true →
      (s.set key entry).2 = [] ∧
      mapGet (s.set key entry).1.cache key = some entry ∧
      (s.set key entry).1.accessOrder = s.accessOrder.erase key ++ [key] ∧
      (s.set key entry).1.cache.length = s.cache.length) ∧
    (mapHas s.cache key = true →
      (s.get key).2.accessOrder = s.accessOrder.erase key ++ [key]) := by
  have hpos : 1 ≤ s.maxSize := by omega
  have hlen' : s.cache.length ≤ s.maxSize := by omega
  refine ⟨?_, ?_, ?_, ?_⟩
  · intro ops
    have := (applyOps_preserves s ops hinv hpos hlen').2.2
    omega
  · intro hnot hge hev
    have hcap : s.cache.length = s.maxSize := by omega
    obtain ⟨lru, rest, e, ho, hg, hset⟩ :=
      MemStore.set_fresh_at_cap s key entry hinv hpos hnot hcap
    have hlmem : lru ∈ s.cache.map Prod.fst := by
      rw [← mapGet_isSome_iff, hg]
      rfl
    have hknot : key ∉ s.cache.map Prod.fst := by
      intro hmem
      rw [(mapHas_iff _ _).mpr hmem] at hnot
      simp at hnot
    have hne : lru ≠ key := fun heq => hknot (heq ▸ hlmem)
    have hfresh1 : mapHas (mapDelete s.cache lru) key = false := by
      rcases hh : mapHas (mapDelete s.cache lru) key with _ | _
      · rfl
      · exfalso
        have hmem := (mapHas_iff _ _).mp hh
        rw [mapDelete_keys] at hmem
        exact hknot ((List.erase_subset _ _) hmem)
    refine ⟨lru, rest, e, ho, hg, ?_, hne, ?_, ?_, ?_⟩
    · rw [hset, hev]
      simp
    · rw [hset]
      show mapGet (mapSet (mapDelete s.cache lru) key entry) lru = none
      rw [mapGet_mapSet_ne _ _ _ _ hne]
      exact mapGet_mapDelete_self _ _ hinv.keys_nodup
    · rw [hset]
      exact mapGet_mapSet_self _ _ _
    · rw [hset]
      show (mapSet (mapDelete s.cache lru) key entry).length ≤ k
      have h1 : (mapSet (mapDelete s.cache lru) key entry).map Prod.fst =
          (mapDelete s.cache lru).map Prod.fst ++ [key] :=
        mapSet_keys_of_not_has _ _ _ hfresh1
      have h2 := congrArg List.length h1
      simp only [List.length_map, List.length_append, List.length_singleton] at h2
      have h3 : (mapDelete s.cache lru).length + 1 = s.cache.length := by
        have ha : (mapDelete s.cache lru).length =
            ((s.cache.map Prod.fst).erase lru).length := by
          rw [← mapDelete_keys]
          simp
        have hb : ((s.cache.map Prod.fst).erase lru).length + 1 =
            (s.cache.map Prod.fst).length := by
          rw [List.length_erase_of_mem hlmem]
          have : 1 ≤ (s.cache.map Prod.fst).length := List.length_pos.mpr
            (by intro hemp; rw [hemp] at hlmem; exact List.not_mem_nil _ hlmem)
          omega
        rw [ha]
        simpa using hb
      omega
  · intro hhas
    have heq := MemStore.set_present_spec s key entry hhas
    have hkeys := mapSet_keys_of_has s.cache key entry hhas
    refine ⟨by rw [heq], ?_, by rw [heq]; rfl, ?_⟩
    · rw [heq]
      exact mapGet_mapSet_self _ _ _
    · rw [heq]
      show (mapSet s.cache key entry).length = s.cache.length
      have := congrArg List.length hkeys
      simpa using this
  · intro hhas
    exact (MemStore.get_spec s key hinv).2.2.2.2.2 (by rw [← mapHas]; exact hhas)

/-! ### Step characterization lemmas for the concurrency proof -/

theorem callerStep_start_GET {T : Type} (c : Config T) (i : Nat) (url : String)
    (init : FetchInit) (hc : c.callers.get? i = some (.start url init))
    (hg : goodInit init = true) :
    ∃ ttl, callerStep c i = some { c with
      mem := (c.mem.get (c.opts.genKey url)).2,
      callers := c.callers.set i (.afterGet (c.opts.genKey url) ttl url init
        (c.mem.get (c.opts.genKey url)).1) } := by
  have hg' := hg
  simp only [goodInit, Bool.and_eq_true, decide_eq_true_eq] at hg'
  obtain ⟨hgt, hgm⟩ := hg'
  rcases htt : init.timeToLive with _ | t
  · refine ⟨c.opts.defaultTimeToLive, ?_⟩
    simp [callerStep, getElem?_eq_of_get? hc, htt, callerStep.startClassify, hgm]
  · rw [htt] at hgt
    simp only at hgt
    refine ⟨t.toQ, ?_⟩
    simp [callerStep, getElem?_eq_of_get? hc, htt, hgt, callerStep.startClassify, hgm]

theorem callerStep_afterGet_none {T : Type} (c : Config T) (i : Nat)
    (k : String) (ttl : ℤ) (url : String) (init : FetchInit)
    (hc : c.callers.get? i = some (.afterGet k ttl url init none)) :
    callerStep c i = some (missOriginate c i k ttl url init) := by
  simp [callerStep, getElem?_eq_of_get? hc]

theorem missOriginate_originate {T : Type} (c : Config T) (i : Nat)
    (k : String) (ttl : ℤ) (url : String) (init : FetchInit)
    (h : mapGet c.inFlight k = none) :
    missOriginate c i k ttl url init = { c with
      callers := c.callers.set i (.joined c.flights.length),
      flights := c.flights ++ [⟨k, ttl, url, init, .awaitFetch⟩],
      inFlight := mapSet c.inFlight k c.flights.length,
      netCount := c.netCount + 1,
      events := if c.opts.onMiss then c.events ++ [.miss k] else c.events } := by
  simp [missOriginate, h]

theorem missOriginate_join {T : Type} (c : Config T) (i : Nat)
    (k : String) (ttl : ℤ) (url : String) (init : FetchInit) (fid : Nat)
    (h : mapGet c.inFlight k = some fid) :
    missOriginate c i k ttl url init =
      { c with callers := c.callers.set i (.joined fid) } := by
  simp [missOriginate, h]

theorem callerStep_joined_settled {T : Type} (c : Config T) (i fid : Nat)
    (fl : FlightRec T) (r : Except FetchError T)
    (hc : c.callers.get? i = some (.joined fid))
    (hf : c.flights.get? fid = some fl) (hph : fl.phase = .settled r) :
    callerStep c i = some { c with callers := c.callers.set i (.done r) } := by
  simp [callerStep, getElem?_eq_of_get? hc, getElem?_eq_of_get? hf, hph]

theorem callerStep_joined_pending {T : Type} (c : Config T) (i fid : Nat)
    (fl : FlightRec T) (hc : c.callers.get? i = some (.joined fid))
    (hf : c.flights.get? fid = some fl)
    (hph : ∀ r, fl.phase ≠ FlightPhase.settled r) :
    callerStep c i = none := by
  rcases hp : fl.phase with _ | o | r | v | r
  · simp [callerStep, getElem?_eq_of_get? hc, getElem?_eq_of_get? hf, hp]
  · simp [callerStep, getElem?_eq_of_get? hc, getElem?_eq_of_get? hf, hp]
  · simp [callerStep, getElem?_eq_of_get? hc, getElem?_eq_of_get? hf, hp]
  · simp [callerStep, getElem?_eq_of_get? hc, getElem?_eq_of_get? hf, hp]
  · exact absurd hp (hph r)

theorem flightStep_afterFetch_fail {T : Type} (c : Config T) (j : Nat)
    (fl : FlightRec T) (msg : String) (hf : c.flights.get? j = some fl)
    (hph : fl.phase = .afterFetch (.netFail msg)) :
    flightStep c j = some (settleFlight c j fl (.error (.network msg))) := by
  simp [flightStep, getElem?_eq_of_get? hf, hph]

theorem flightStep_afterFetch_notOk {T : Type} (c : Config T) (j : Nat)
    (fl : FlightRec T) (r : JSResponse T) (hf : c.flights.get? j = some fl)
    (hph : fl.phase = .afterFetch (.resp r)) (hok : r.ok = false) :
    flightStep c j = some (settleFlight c j fl (.error (.http r.status r.statusText))) := by
  simp [flightStep, getElem?_eq_of_get? hf, hph, hok]

theorem flightStep_afterFetch_ok {T : Type} (c : Config T) (j : Nat)
    (fl : FlightRec T) (r : JSResponse T) (hf : c.flights.get? j = some fl)
    (hph : fl.phase = .afterFetch (.resp r)) (hok : r.ok = true) :
    flightStep c j =
      some { c with flights := c.flights.set j { fl with phase := .awaitJson r } } := by
  simp [flightStep, getElem?_eq_of_get? hf, hph, hok]

theorem flightStep_awaitJson_err {T : Type} (c : Config T) (j : Nat)
    (fl : FlightRec T) (r : JSResponse T) (m : String) (hf : c.flights.get? j = some fl)
    (hph : fl.phase = .awaitJson r) (hp : parseJSON r = .error m) :
    flightStep c j = some (settleFlight c j fl (.error (.decode m))) := by
  simp [flightStep, getElem?_eq_of_get? hf, hph, hp]

theorem flightStep_awaitJson_ok_cache {T : Type} (c : Config T) (j : Nat)
    (fl : FlightRec T) (r : JSResponse T) (v : T) (hf : c.flights.get? j = some fl)
    (hph : fl.phase = .awaitJson r) (hp : parseJSON r = .ok v)
    (hsc : (match c.opts.shouldCache with
            | some pred => pred v
            | none => true) = true) :
    flightStep c j = some { c with
      mem := (c.mem.set fl.key (createEntry c.now v fl.ttl)).1,
      events := c.events ++
        (c.mem.set fl.key (createEntry c.now v fl.ttl)).2.map (fun kv => .evict kv.1 kv.2),
      flights := c.flights.set j { fl with phase := .afterSet v } } := by
  simp [flightStep, getElem?_eq_of_get? hf, hph, hp, hsc]

theorem flightStep_awaitJson_ok_nocache {T : Type} (c : Config T) (j : Nat)
    (fl : FlightRec T) (r : JSResponse T) (v : T) (hf : c.flights.get? j = some fl)
    (hph : fl.phase = .awaitJson r) (hp : parseJSON r = .ok v)
    (hsc : (match c.opts.shouldCache with
            | some pred => pred v
            | none => true) = false) :
    flightStep c j = some (settleFlight c j fl (.ok v)) := by
  simp [flightStep, getElem?_eq_of_get? hf, hph, hp, hsc]

theorem flightStep_afterSet {T : Type} (c : Config T) (j : Nat)
    (fl : FlightRec T) (v : T) (hf : c.flights.get? j = some fl)
    (hph : fl.phase = .afterSet v) :
    flightStep c j = some (settleFlight c j fl (.ok v)) := by
  simp [flightStep, getElem?_eq_of_get? hf, hph]

theorem flightStep_stuck {T : Type} (c : Config T) (j : Nat)
    (fl : FlightRec T) (hf : c.flights.get? j = some fl)
    (hph : fl.phase = .awaitFetch ∨ ∃ r, fl.phase = .settled r) :
    flightStep c j = none := by
  rcases hph with hph | ⟨r, hph⟩ <;>
    simp [flightStep, getElem?_eq_of_get? hf, hph]

theorem getElem?_none_of_get? {α : Type} {l : List α} {i : Nat}
    (h : l.get? i = none) : l[i]? = none := by
  rw [← List.get?_eq_getElem?]
  exact h

theorem quiescent_caller {T : Type} (c : Config T) (h : hasRunnable c = false)
    {ph : CallerPhase T} (hmem : ph ∈ c.callers) :
    callerRunnable c.flights ph = false := by
  simp only [hasRunnable, Bool.or_eq_false_iff, List.any_eq_false] at h
  exact Bool.eq_false_iff.mpr (h.1 ph hmem)

/-- Caller microtasks preserve the burst invariant. -/
theorem C1Inv_caller {T : Type} {k url : String} {c c' : Config T} {i : Nat}
    (h : C1Inv T k url c) (hs : callerStep c i = some c') : C1Inv T k url c' := by
  obtain ⟨hgen, hdisj⟩ := h
  rcases hci : c.callers.get? i with _ | ph
  · rw [show callerStep c i = none by
      simp [callerStep, getElem?_none_of_get? hci]] at hs
    cases hs
  have hmem : ph ∈ c.callers := List.get?_mem hci
  rcases hdisj with ⟨hfl, hifl, hnc, hmemk, hcallers⟩ |
    ⟨fl, hfl, hkey, hphase, hifl, hnc, hmemk, hcallers⟩ |
    ⟨fl, hfl, hkey, hphase3, hifl, hnc, hcallers⟩ |
    ⟨fl, r, hfl, hkey, hphase, hifl, hnc, hmemerr, hcallers⟩
  · -- phase P0: no flight yet
    rcases hcallers ph hmem with ⟨init, hginit, hphe⟩ | ⟨ttl, init, hphe⟩
    · -- a caller runs its first segment: store.get on k returns no entry
      subst hphe
      obtain ⟨ttl, hstep⟩ := callerStep_start_GET c i url init hci hginit
      rw [hgen] at hstep
      have hmempair : c.mem.get k = (none, c.mem) := by
        simp [MemStore.get, hmemk]
      rw [hmempair] at hstep
      rw [hstep] at hs
      cases hs
      refine ⟨hgen, Or.inl ⟨hfl, hifl, hnc, hmemk, ?_⟩⟩
      intro ph' hmem'
      rcases List.mem_or_eq_of_mem_set hmem' with hin | heq
      · exact hcallers ph' hin
      · exact Or.inr ⟨ttl, init, heq⟩
    · -- a caller originates: lookup of the in-flight table fails and the
      -- flight is published in the same segment
      subst hphe
      have hstep := callerStep_afterGet_none c i k ttl url init hci
      have hnone : mapGet c.inFlight k = none := by rw [hifl]; rfl
      rw [missOriginate_originate c i k ttl url init hnone] at hstep
      rw [hstep] at hs
      cases hs
      refine ⟨hgen, Or.inr (Or.inl ⟨⟨k, ttl, url, init, .awaitFetch⟩, ?_, rfl, rfl,
        ?_, ?_, hmemk, ?_⟩)⟩
      · rw [hfl]
        rfl
      · rw [hifl, hfl]
        rfl
      · rw [hnc]
      · intro ph' hmem'
        rcases List.mem_or_eq_of_mem_set hmem' with hin | heq
        · exact Or.inl (hcallers ph' hin)
        · rw [hfl] at heq
          exact Or.inr heq
  · -- phase P1: one flight awaiting its fetch
    have hf0 : c.flights.get? 0 = some fl := by rw [hfl]; rfl
    rcases hcallers ph hmem with (⟨init, hginit, hphe⟩ | ⟨ttl, init, hphe⟩) | hphe
    · subst hphe
      obtain ⟨ttl, hstep⟩ := callerStep_start_GET c i url init hci hginit
      rw [hgen] at hstep
      have hmempair : c.mem.get k = (none, c.mem) := by
        simp [MemStore.get, hmemk]
      rw [hmempair] at hstep
      rw [hstep] at hs
      cases hs
      refine ⟨hgen, Or.inr (Or.inl ⟨fl, hfl, hkey, hphase, hifl, hnc, hmemk, ?_⟩)⟩
      intro ph' hmem'
      rcases List.mem_or_eq_of_mem_set hmem' with hin | heq
      · exact hcallers ph' hin
      · exact Or.inl (Or.inr ⟨ttl, init, heq⟩)
    · -- a joiner: the in-flight lookup finds flight 0
      subst hphe
      have hstep := callerStep_afterGet_none c i k ttl url init hci
      have hsome : mapGet c.inFlight k = some 0 := by
        rw [hifl]
        simp [mapGet]
      rw [missOriginate_join c i k ttl url init 0 hsome] at hstep
      rw [hstep] at hs
      cases hs
      refine ⟨hgen, Or.inr (Or.inl ⟨fl, hfl, hkey, hphase, hifl, hnc, hmemk, ?_⟩)⟩
      intro ph' hmem'
      rcases List.mem_or_eq_of_mem_set hmem' with hin | heq
      · exact hcallers ph' hin
      · exact Or.inr heq
    · subst hphe
      rw [callerStep_joined_pending c i 0 fl hci hf0
        (by rw [hphase]; intro r hcon; cases hcon)] at hs
      cases hs
  · -- phase P2: flight past delivery; every caller has joined and none can run
    have hf0 : c.flights.get? 0 = some fl := by rw [hfl]; rfl
    have hphe := hcallers ph hmem
    subst hphe
    have hpend : ∀ r, fl.phase ≠ FlightPhase.settled r := by
      rcases hphase3 with ⟨o, hp, -⟩ | ⟨r, hp, -⟩ | ⟨v, hp⟩ <;>
        (rw [hp]; intro r hcon; cases hcon)
    rw [callerStep_joined_pending c i 0 fl hci hf0 hpend] at hs
    cases hs
  · -- phase P3: the flight has settled; joiners complete with its outcome
    have hf0 : c.flights.get? 0 = some fl := by rw [hfl]; rfl
    rcases hcallers ph hmem with hphe | hphe
    · subst hphe
      rw [callerStep_joined_settled c i 0 fl r hci hf0 hphase] at hs
      cases hs
      refine ⟨hgen, Or.inr (Or.inr (Or.inr ⟨fl, r, hfl, hkey, hphase, hifl, hnc,
        hmemerr, ?_⟩))⟩
      intro ph' hmem'
      rcases List.mem_or_eq_of_mem_set hmem' with hin | heq
      · exact hcallers ph' hin
      · exact Or.inr heq
    · subst hphe
      rw [show callerStep c i = none by
        simp [callerStep, getElem?_eq_of_get? hci]] at hs
      cases hs

/-- After settling flight 0 (out of a one-flight list keyed `k`), the flight
list is the settled record and the in-flight entry for `k` is gone. -/
theorem settleFlight_shape {T : Type} (c : Config T) (fl : FlightRec T)
    (r : Except FetchError T) (k : String) (hfl : c.flights = [fl])
    (hkey : fl.key = k) (hifl : c.inFlight = [(k, 0)]) :
    settleFlight c 0 fl r = { c with
      flights := [{ fl with phase := .settled r }],
      inFlight := [] } := by
  rw [settleFlight, hfl, hkey, hifl]
  simp [mapDelete]

/-- Flight microtasks preserve the burst invariant. -/
theorem C1Inv_flight {T : Type} {k url : String} {c c' : Config T} {j : Nat}
    (h : C1Inv T k url c) (hs : flightStep c j = some c') : C1Inv T k url c' := by
  obtain ⟨hgen, hdisj⟩ := h
  rcases hdisj with ⟨hfl, hifl, hnc, hmemk, hcallers⟩ |
    ⟨fl, hfl, hkey, hphase, hifl, hnc, hmemk, hcallers⟩ |
    ⟨fl, hfl, hkey, hphase3, hifl, hnc, hcallers⟩ |
    ⟨fl, r, hfl, hkey, hphase, hifl, hnc, hmemerr, hcallers⟩
  · -- no flight exists
    have hnone : c.flights.get? j = none := by
      rw [hfl]
      cases j <;> rfl
    rw [show flightStep c j = none by
      simp [flightStep, getElem?_none_of_get? hnone]] at hs
    cases hs
  · -- the single flight is still awaiting its fetch: not runnable
    rcases j with _ | j'
    · rw [flightStep_stuck c 0 fl (by rw [hfl]; rfl) (Or.inl hphase)] at hs
      cases hs
    · have hnone : c.flights.get? (j' + 1) = none := by
        rw [hfl]
        rfl
      rw [show flightStep c (j' + 1) = none by
        simp [flightStep, getElem?_none_of_get? hnone]] at hs
      cases hs
  · -- the flight is past delivery: it advances or settles
    rcases j with _ | j'
    case succ =>
      have hnone : c.flights.get? (j' + 1) = none := by
        rw [hfl]
        rfl
      rw [show flightStep c (j' + 1) = none by
        simp [flightStep, getElem?_none_of_get? hnone]] at hs
      cases hs
    have hf0 : c.flights.get? 0 = some fl := by rw [hfl]; rfl
    rcases hphase3 with ⟨o, hp, hmemk⟩ | ⟨resp, hp, hmemk⟩ | ⟨v, hp⟩
    · -- resumed from `await fetch`
      rcases o with msg | resp
      · -- transport failure: settle with the network error
        rw [flightStep_afterFetch_fail c 0 fl msg hf0 hp] at hs
        rw [settleFlight_shape c fl _ k hfl hkey hifl] at hs
        cases hs
        refine ⟨hgen, Or.inr (Or.inr (Or.inr ⟨_, _, rfl, hkey, rfl, rfl, hnc,
          fun e _ => hmemk, fun ph hm => Or.inl (hcallers ph hm)⟩))⟩
      · rcases hok : resp.ok with _ | _
        · -- non-ok response: settle with the HTTP error
          rw [flightStep_afterFetch_notOk c 0 fl resp hf0 hp hok] at hs
          rw [settleFlight_shape c fl _ k hfl hkey hifl] at hs
          cases hs
          refine ⟨hgen, Or.inr (Or.inr (Or.inr ⟨_, _, rfl, hkey, rfl, rfl, hnc,
            fun e _ => hmemk, fun ph hm => Or.inl (hcallers ph hm)⟩))⟩
        · -- ok response: move to `await response.json()`
          rw [flightStep_afterFetch_ok c 0 fl resp hf0 hp hok] at hs
          cases hs
          refine ⟨hgen, Or.inr (Or.inr (Or.inl ⟨{ fl with phase := .awaitJson resp },
            ?_, hkey, Or.inr (Or.inl ⟨resp, rfl, hmemk⟩), hifl, hnc, hcallers⟩))⟩
          rw [hfl]
          rfl
    · -- resumed from `await response.json()`
      rcases hjson : parseJSON resp with m | v
      · -- decode failure: settle with the decode error
        rw [flightStep_awaitJson_err c 0 fl resp m hf0 hp hjson] at hs
        rw [settleFlight_shape c fl _ k hfl hkey hifl] at hs
        cases hs
        refine ⟨hgen, Or.inr (Or.inr (Or.inr ⟨_, _, rfl, hkey, rfl, rfl, hnc,
          fun e _ => hmemk, fun ph hm => Or.inl (hcallers ph hm)⟩))⟩
      · cases hsc : (match c.opts.shouldCache with
            | some pred => pred v
            | none => true)
        · -- cache-worthiness rejected: settle with the value, store nothing
          rw [flightStep_awaitJson_ok_nocache c 0 fl resp v hf0 hp hjson hsc] at hs
          rw [settleFlight_shape c fl _ k hfl hkey hifl] at hs
          cases hs
          refine ⟨hgen, Or.inr (Or.inr (Or.inr ⟨_, _, rfl, hkey, rfl, rfl, hnc,
            ?_, fun ph hm => Or.inl (hcallers ph hm)⟩))⟩
          intro e he
          cases he
        · -- store the entry (`await store.set`)
          rw [flightStep_awaitJson_ok_cache c 0 fl resp v hf0 hp hjson hsc] at hs
          cases hs
          refine ⟨hgen, Or.inr (Or.inr (Or.inl ⟨{ fl with phase := .afterSet v },
            ?_, hkey, Or.inr (Or.inr ⟨v, rfl⟩), hifl, hnc, hcallers⟩))⟩
          rw [hfl]
          rfl
    · -- resumed from `await store.set`: settle with the value
      rw [flightStep_afterSet c 0 fl v hf0 hp] at hs
      rw [settleFlight_shape c fl _ k hfl hkey hifl] at hs
      cases hs
      refine ⟨hgen, Or.inr (Or.inr (Or.inr ⟨_, _, rfl, hkey, rfl, rfl, hnc,
        ?_, fun ph hm => Or.inl (hcallers ph hm)⟩))⟩
      intro e he
      cases he
  · -- the flight has settled: no further flight step
    rcases j with _ | j'
    · rw [flightStep_stuck c 0 fl (by rw [hfl]; rfl) (Or.inr ⟨r, hphase⟩)] at hs
      cases hs
    · have hnone : c.flights.get? (j' + 1) = none := by
        rw [hfl]
        rfl
      rw [show flightStep c (j' + 1) = none by
        simp [flightStep, getElem?_none_of_get? hnone]] at hs
      cases hs

/-- Network delivery to a flight preserves the burst invariant: it requires
quiescence, so by then every caller has already joined the flight. -/
theorem C1Inv_deliverFlight {T : Type} {k url : String} {c c' : Config T}
    {j : Nat} {o : NetOutcome T}
    (h : C1Inv T k url c) (hs : step c (.deliverFlight j o) = some c') :
    C1Inv T k url c' := by
  obtain ⟨hgen, hdisj⟩ := h
  rcases hq : hasRunnable c with _ | _
  swap
  · rw [show step c (.deliverFlight j o) = none by simp [step, hq]] at hs
    cases hs
  rcases hdisj with ⟨hfl, hifl, hnc, hmemk, hcallers⟩ |
    ⟨fl, hfl, hkey, hphase, hifl, hnc, hmemk, hcallers⟩ |
    ⟨fl, hfl, hkey, hphase3, hifl, hnc, hcallers⟩ |
    ⟨fl, r, hfl, hkey, hphase, hifl, hnc, hmemerr, hcallers⟩
  · have hnone : c.flights.get? j = none := by
      rw [hfl]
      cases j <;> rfl
    rw [show step c (.deliverFlight j o) = none by
      simp [step, hq, getElem?_none_of_get? hnone]] at hs
    cases hs
  · rcases j with _ | j'
    case succ =>
      have hnone : c.flights.get? (j' + 1) = none := by
        rw [hfl]
        rfl
      rw [show step c (.deliverFlight (j' + 1) o) = none by
        simp [step, hq, getElem?_none_of_get? hnone]] at hs
      cases hs
    have hf0 : c.flights.get? 0 = some fl := by rw [hfl]; rfl
    rw [show step c (.deliverFlight 0 o) =
        some { c with flights := c.flights.set 0 { fl with phase := .afterFetch o } } by
      simp [step, hq, getElem?_eq_of_get? hf0, hphase]] at hs
    cases hs
    -- at delivery time no caller was runnable, so every caller had joined
    have hjoined : ∀ ph ∈ c.callers, ph = CallerPhase.joined 0 := by
      intro ph hm
      rcases hcallers ph hm with (⟨init, hginit, hphe⟩ | ⟨ttl, init, hphe⟩) | hphe
      · exfalso
        have := quiescent_caller c hq hm
        rw [hphe] at this
        simp [callerRunnable] at this
      · exfalso
        have := quiescent_caller c hq hm
        rw [hphe] at this
        simp [callerRunnable] at this
      · exact hphe
    refine ⟨hgen, Or.inr (Or.inr (Or.inl ⟨{ fl with phase := .afterFetch o },
      ?_, hkey, Or.inl ⟨o, rfl, hmemk⟩, hifl, hnc, hjoined⟩))⟩
    rw [hfl]
    rfl
  · -- past delivery: the flight is no longer awaiting a fetch
    rcases j with _ | j'
    case succ =>
      have hnone : c.flights.get? (j' + 1) = none := by
        rw [hfl]
        rfl
      rw [show step c (.deliverFlight (j' + 1) o) = none by
        simp [step, hq, getElem?_none_of_get? hnone]] at hs
      cases hs
    have hf0 : c.flights.get? 0 = some fl := by rw [hfl]; rfl
    rcases hphase3 with ⟨o', hp, -⟩ | ⟨resp, hp, -⟩ | ⟨v, hp⟩ <;>
      (rw [show step c (.deliverFlight 0 o) = none by
        simp [step, hq, getElem?_eq_of_get? hf0, hp]] at hs; cases hs)
  · rcases j with _ | j'
    case succ =>
      have hnone : c.flights.get? (j' + 1) = none := by
        rw [hfl]
        rfl
      rw [show step c (.deliverFlight (j' + 1) o) = none by
        simp [step, hq, getElem?_none_of_get? hnone]] at hs
      cases hs
    have hf0 : c.flights.get? 0 = some fl := by rw [hfl]; rfl
    rw [show step c (.deliverFlight 0 o) = none by
      simp [step, hq, getElem?_eq_of_get? hf0, hphase]] at hs
    cases hs

/-- Network delivery to a caller cannot occur in a deduplicable burst: no
caller is ever on the non-GET path. -/
theorem C1Inv_deliverCaller {T : Type} {k url : String} {c c' : Config T}
    {i : Nat} {o : NetOutcome T}
    (h : C1Inv T k url c) (hs : step c (.deliverCaller i o) = some c') :
    C1Inv T k url c' := by
  obtain ⟨hgen, hdisj⟩ := h
  exfalso
  rcases hq : hasRunnable c with _ | _
  swap
  · rw [show step c (.deliverCaller i o) = none by simp [step, hq]] at hs
    cases hs
  rcases hci : c.callers.get? i with _ | ph
  · rw [show step c (.deliverCaller i o) = none by
      simp [step, hq, getElem?_none_of_get? hci]] at hs
    cases hs
  have hmem : ph ∈ c.callers := List.get?_mem hci
  have hnot : ∀ u ii, ph ≠ CallerPhase.awaitNetDirect u ii := by
    rcases hdisj with ⟨-, -, -, -, hcallers⟩ | ⟨fl, -, -, -, -, -, -, hcallers⟩ |
      ⟨fl, -, -, -, -, -, hcallers⟩ | ⟨fl, r, -, -, -, -, -, -, hcallers⟩
    · rcases hcallers ph hmem with ⟨init, -, hphe⟩ | ⟨ttl, init, hphe⟩ <;>
        (rw [hphe]; intro u ii hcon; cases hcon)
    · rcases hcallers ph hmem with (⟨init, -, hphe⟩ | ⟨ttl, init, hphe⟩) | hphe <;>
        (rw [hphe]; intro u ii hcon; cases hcon)
    · have hphe := hcallers ph hmem
      rw [hphe]
      intro u ii hcon
      cases hcon
    · rcases hcallers ph hmem with hphe | hphe <;>
        (rw [hphe]; intro u ii hcon; cases hcon)
  cases hph : ph with
  | awaitNetDirect u ii => exact hnot u ii hph
  | start u ii =>
    rw [hph] at hci
    rw [show step c (.deliverCaller i o) = none by
      simp [step, hq, getElem?_eq_of_get? hci]] at hs
    cases hs
  | afterNetDirect oo =>
    rw [hph] at hci
    rw [show step c (.deliverCaller i o) = none by
      simp [step, hq, getElem?_eq_of_get? hci]] at hs
    cases hs
  | afterGet a b u ii sn =>
    rw [hph] at hci
    rw [show step c (.deliverCaller i o) = none by
      simp [step, hq, getElem?_eq_of_get? hci]] at hs
    cases hs
  | afterDelete a b u ii =>
    rw [hph] at hci
    rw [show step c (.deliverCaller i o) = none by
      simp [step, hq, getElem?_eq_of_get? hci]] at hs
    cases hs
  | joined fid =>
    rw [hph] at hci
    rw [show step c (.deliverCaller i o) = none by
      simp [step, hq, getElem?_eq_of_get? hci]] at hs
    cases hs
  | done rr =>
    rw [hph] at hci
    rw [show step c (.deliverCaller i o) = none by
      simp [step, hq, getElem?_eq_of_get? hci]] at hs
    cases hs

/-- Every scheduler step preserves the burst invariant. -/
theorem C1Inv_step {T : Type} {k url : String} {c c' : Config T} {ch : Choice T}
    (h : C1Inv T k url c) (hs : step c ch = some c') : C1Inv T k url c' := by
  cases ch with
  | caller i => exact C1Inv_caller h hs
  | flight j => exact C1Inv_flight h hs
  | deliverFlight j o => exact C1Inv_deliverFlight h hs
  | deliverCaller i o => exact C1Inv_deliverCaller h hs

/-- Every schedule preserves the burst invariant. -/
theorem C1Inv_run {T : Type} (k url : String) (c : Config T)
    (sched : List (Choice T)) (h : C1Inv T k url c) :
    C1Inv T k url (run c sched) := by
  induction sched generalizing c with
  | nil => exact h
  | cons ch rest ih =>
    rw [run, List.foldl_cons]
    rcases hstep : step c ch with _ | c'
    · rw [Option.getD_none]
      exact ih c h
    · rw [Option.getD_some]
      exact ih c' (C1Inv_step h hstep)

/-- No scheduler step adds or removes callers. -/
theorem callerStep_callers_length {T : Type} {c c' : Config T} {i : Nat}
    (hs : callerStep c i = some c') : c'.callers.length = c.callers.length := by
  rcases hci : c.callers.get? i with _ | ph
  · rw [show callerStep c i = none by
      simp [callerStep, getElem?_none_of_get? hci]] at hs
    cases hs
  cases ph
  all_goals
    simp only [callerStep, getElem?_eq_of_get? hci, callerStep.startClassify,
      missOriginate] at hs
  all_goals repeat' split at hs
  all_goals (cases hs <;> simp [List.length_set])

theorem flightStep_callers_length {T : Type} {c c' : Config T} {j : Nat}
    (hs : flightStep c j = some c') : c'.callers.length = c.callers.length := by
  rcases hfj : c.flights.get? j with _ | fl
  · rw [show flightStep c j = none by
      simp [flightStep, getElem?_none_of_get? hfj]] at hs
    cases hs
  simp only [flightStep, getElem?_eq_of_get? hfj, settleFlight] at hs
  repeat' split at hs
  all_goals (cases hs <;> rfl)

theorem step_callers_length {T : Type} {c c' : Config T} {ch : Choice T}
    (hs : step c ch = some c') : c'.callers.length = c.callers.length := by
  cases ch with
  | caller i => exact callerStep_callers_length hs
  | flight j => exact flightStep_callers_length hs
  | deliverFlight j o =>
    simp only [step] at hs
    repeat' split at hs
    all_goals (cases hs <;> rfl)
  | deliverCaller i o =>
    simp only [step] at hs
    repeat' split at hs
    all_goals (cases hs <;> simp [List.length_set])

theorem run_callers_length {T : Type} (c : Config T) (sched : List (Choice T)) :
    (run c sched).callers.length = c.callers.length := by
  induction sched generalizing c with
  | nil => rfl
  | cons ch rest ih =>
    rw [run, List.foldl_cons]
    rcases hstep : step c ch with _ | c'
    · rw [Option.getD_none]
      exact ih c
    · rw [Option.getD_some]
      rw [show List.foldl (fun c ch => (step c ch).getD c) c' rest = run c' rest from rfl,
        ih c']
      exact step_callers_length hstep

/-- A nonempty completed burst must be in the settled phase: every caller is
done with the one flight's outcome, the producer ran exactly once, and the
in-flight table is clean. -/
theorem C1_completed_settled {T : Type} (k url : String) (cf : Config T)
    (hinv : C1Inv T k url cf) (hcne : cf.callers ≠ [])
    (hdone : ∀ ph ∈ cf.callers, ph.isDone = true) :
    ∃ fl r, cf.flights = [fl] ∧ fl.key = k ∧ fl.phase = FlightPhase.settled r ∧
      cf.inFlight = [] ∧ cf.netCount = 1 ∧
      (∀ e, r = Except.error e → mapGet cf.mem.cache k = none) ∧
      ∀ ph ∈ cf.callers, ph = CallerPhase.done r := by
  obtain ⟨ph0, hph0⟩ := List.exists_mem_of_ne_nil cf.callers hcne
  obtain ⟨hgen, hdisj⟩ := hinv
  rcases hdisj with ⟨-, -, -, -, hcallers⟩ |
    ⟨fl, -, -, -, -, -, -, hcallers⟩ |
    ⟨fl, -, -, -, -, -, hcallers⟩ |
    ⟨fl, r, hfl, hkey, hphase, hifl, hnc, hmemerr, hcallers⟩
  · exfalso
    have hd := hdone ph0 hph0
    rcases hcallers ph0 hph0 with ⟨init, -, hphe⟩ | ⟨ttl, init, hphe⟩ <;>
      (rw [hphe] at hd; simp [CallerPhase.isDone] at hd)
  · exfalso
    have hd := hdone ph0 hph0
    rcases hcallers ph0 hph0 with (⟨init, -, hphe⟩ | ⟨ttl, init, hphe⟩) | hphe <;>
      (rw [hphe] at hd; simp [CallerPhase.isDone] at hd)
  · exfalso
    have hd := hdone ph0 hph0
    rw [hcallers ph0 hph0] at hd
    simp [CallerPhase.isDone] at hd
  · refine ⟨fl, r, hfl, hkey, hphase, hifl, hnc, hmemerr, ?_⟩
    intro ph hm
    rcases hcallers ph hm with hphe | hphe
    · exfalso
      have hd := hdone ph hm
      rw [hphe] at hd
      simp [CallerPhase.isDone] at hd
    · exact hphe

/-- C1: for N ≥ 1 concurrent calls (all issued before the event loop runs)
with the same deduplicable GET key and no pre-existing cache entry, under
every schedule that drives all the calls to completion the network producer
is invoked exactly once, and all N calls resolve to the same outcome (the
same value, or the same error).  The read-check-publish sequence is a single
synchronous segment of the model, so no second caller can decide to
originate between the in-flight lookup failing and the in-flight entry being
published — this is what the invariant's single-flight phases capture. -/
theorem claim_C1 {T : Type} (opts : OrchOptions T) (now : ℤ) (mem0 : MemStore T)
    (url : String) (inits : List FetchInit) (sched : List (Choice T))
    (c0 cf : Config T)
    (hc0 : c0 = { opts := opts, now := now, mem := mem0, inFlight := [],
                  flights := [],
                  callers := inits.map (fun init => CallerPhase.start url init),
                  netCount := 0, events := [] })
    (hcf : cf = run c0 sched)
    (hne : inits ≠ [])
    (hgood : ∀ init ∈ inits, goodInit init = true)
    (hmem : mapGet mem0.cache (opts.genKey url) = none)
    (hdone : ∀ ph ∈ cf.callers, ph.isDone = true) :
    cf.netCount = 1 ∧ ∃ r, ∀ ph ∈ cf.callers, ph = CallerPhase.done r := by
  have hinv0 : C1Inv T (opts.genKey url) url c0 := by
    subst hc0
    refine ⟨rfl, Or.inl ⟨rfl, rfl, rfl, hmem, ?_⟩⟩
    intro ph hm
    rw [List.mem_map] at hm
    obtain ⟨init, hin, hph⟩ := hm
    exact Or.inl ⟨init, hgood init hin, hph.symm⟩
  have hinv : C1Inv T (opts.genKey url) url cf := by
    rw [hcf]
    exact C1Inv_run _ _ c0 sched hinv0
  have hlen : cf.callers.length = inits.length := by
    rw [hcf, run_callers_length, hc0]
    simp
  have hcne : cf.callers ≠ [] := by
    intro hemp
    rw [hemp] at hlen
    simp at hlen
    exact hne (List.eq_nil_of_length_eq_zero hlen.symm)
  obtain ⟨fl, r, -, -, -, -, hnc, -, hall⟩ :=
    C1_completed_settled (opts.genKey url) url cf hinv hcne hdone
  exact ⟨hnc, r, hall⟩

/-- C3: in the same burst setting, if the run completes and some call failed
(the producer or the decoding failed), then every call — originator and
joiners alike — rejected with that same error, no cache entry was stored for
the key, the in-flight entry was removed once the producer settled (the
in-flight table is clean at completion regardless of success or failure),
the producer ran exactly once, and the very next call for the same key is a
clean miss: its two segments run the store lookup (no entry), find no
in-flight computation, and start — and publish — a brand-new network
attempt. -/
theorem claim_C3 {T : Type} (opts : OrchOptions T) (now : ℤ) (mem0 : MemStore T)
    (url : String) (inits : List FetchInit) (sched : List (Choice T))
    (c0 cf : Config T)
    (hc0 : c0 = { opts := opts, now := now, mem := mem0, inFlight := [],
                  flights := [],
                  callers := inits.map (fun init => CallerPhase.start url init),
                  netCount := 0, events := [] })
    (hcf : cf = run c0 sched)
    (hne : inits ≠ [])
    (hgood : ∀ init ∈ inits, goodInit init = true)
    (hmem : mapGet mem0.cache (opts.genKey url) = none)
    (hdone : ∀ ph ∈ cf.callers, ph.isDone = true) :
    cf.inFlight = [] ∧
    ∀ e, CallerPhase.done (T := T) (Except.error e) ∈ cf.callers →
      (∀ ph ∈ cf.callers, ph = CallerPhase.done (Except.error e)) ∧
      mapGet cf.mem.cache (opts.genKey url) = none ∧
      cf.netCount = 1 ∧
      (∀ init', goodInit init' = true →
        ∃ c1 c2, callerStep { cf with callers := cf.callers ++ [.start url init'] }
            cf.callers.length = some c1 ∧
          callerStep c1 cf.callers.length = some c2 ∧
          c2.netCount = cf.netCount + 1 ∧
          mapGet c2.inFlight (opts.genKey url) = some cf.flights.length) := by
  have hinv0 : C1Inv T (opts.genKey url) url c0 := by
    subst hc0
    refine ⟨rfl, Or.inl ⟨rfl, rfl, rfl, hmem, ?_⟩⟩
    intro ph hm
    rw [List.mem_map] at hm
    obtain ⟨init, hin, hph⟩ := hm
    exact Or.inl ⟨init, hgood init hin, hph.symm⟩
  have hinv : C1Inv T (opts.genKey url) url cf := by
    rw [hcf]
    exact C1Inv_run _ _ c0 sched hinv0
  have hgen : cf.opts.genKey url = opts.genKey url := hinv.1
  have hlen : cf.callers.length = inits.length := by
    rw [hcf, run_callers_length, hc0]
    simp
  have hcne : cf.callers ≠ [] := by
    intro hemp
    rw [hemp] at hlen
    simp at hlen
    exact hne (List.eq_nil_of_length_eq_zero hlen.symm)
  obtain ⟨fl, r, hfl, hkey, hphase, hifl, hnc, hmemerr, hall⟩ :=
    C1_completed_settled (opts.genKey url) url cf hinv hcne hdone
  refine ⟨hifl, ?_⟩
  intro e hememb
  have herr : r = Except.error e := by
    have := hall _ hememb
    cases this
    rfl
  have hmemcf : mapGet cf.mem.cache (opts.genKey url) = none := hmemerr e herr
  refine ⟨by rw [← herr]; exact hall, hmemcf, hnc, ?_⟩
  intro init' hginit'
  have hget : ({ cf with callers := cf.callers ++ [.start url init'] } :
      Config T).callers.get? cf.callers.length = some (.start url init') :=
    List.get?_concat_length _ _
  obtain ⟨ttl, hstep1⟩ := callerStep_start_GET _ cf.callers.length url init' hget hginit'
  have hgenk : ({ cf with callers := cf.callers ++ [.start url init'] } :
      Config T).opts.genKey url = opts.genKey url := hgen
  rw [hgenk] at hstep1
  have hmempair : ({ cf with callers := cf.callers ++ [.start url init'] } :
      Config T).mem.get (opts.genKey url) = (none, cf.mem) := by
    simp [MemStore.get, hmemcf]
  rw [hmempair] at hstep1
  refine ⟨{ cf with
      callers := (cf.callers ++ [CallerPhase.start url init']).set cf.callers.length
        (CallerPhase.afterGet (opts.genKey url) ttl url init' none) },
    missOriginate { cf with
      callers := (cf.callers ++ [CallerPhase.start url init']).set cf.callers.length
        (CallerPhase.afterGet (opts.genKey url) ttl url init' none) }
      cf.callers.length (opts.genKey url) ttl url init',
    hstep1, ?_, ?_, ?_⟩
  · apply callerStep_afterGet_none
    apply get?_set_self
    simp
  · have hnone2 : mapGet ({ cf with
        callers := (cf.callers ++ [CallerPhase.start url init']).set cf.callers.length
          (CallerPhase.afterGet (opts.genKey url) ttl url init' none) } :
        Config T).inFlight (opts.genKey url) = none := by
      show mapGet cf.inFlight (opts.genKey url) = none
      rw [hifl]
      rfl
    rw [missOriginate_originate _ _ _ _ _ _ hnone2]
  · have hnone2 : mapGet ({ cf with
        callers := (cf.callers ++ [CallerPhase.start url init']).set cf.callers.length
          (CallerPhase.afterGet (opts.genKey url) ttl url init' none) } :
        Config T).inFlight (opts.genKey url) = none := by
      show mapGet cf.inFlight (opts.genKey url) = none
      rw [hifl]
      rfl
    rw [missOriginate_originate _ _ _ _ _ _ hnone2]
    show mapGet (mapSet cf.inFlight (opts.genKey url) cf.flights.length)
      (opts.genKey url) = some cf.flights.length
    rw [hifl]
    simp [mapSet, mapGet]

/-! ### Witnesses: each claim theorem applied at a concrete input -/

/-- Witness for C1: two concurrent GET calls for the same key, a schedule
that interleaves them, delivers one response and completes both; the
producer runs exactly once. -/
theorem claim_C1_witness :
    (run { opts := ⟨100, id, none, true, true⟩, now := 0,
           mem := ⟨1000, false, [], []⟩, inFlight := [], flights := [],
           callers := [CallerPhase.start "k" ⟨none, none⟩,
                       CallerPhase.start "k" ⟨none, none⟩],
           netCount := 0, events := [] }
      [Choice.caller 0, Choice.caller 1, Choice.caller 0, Choice.caller 1,
       Choice.deliverFlight 0 (NetOutcome.resp ⟨true, 200, "OK",
         some "application/json", Except.ok 42⟩),
       Choice.flight 0, Choice.flight 0, Choice.flight 0,
       Choice.caller 0, Choice.caller 1]).netCount = 1 := by
  have h := claim_C1 (⟨100, id, none, true, true⟩ : OrchOptions Nat) 0
    ⟨1000, false, [], []⟩ "k" [⟨none, none⟩, ⟨none, none⟩]
    [Choice.caller 0, Choice.caller 1, Choice.caller 0, Choice.caller 1,
     Choice.deliverFlight 0 (NetOutcome.resp ⟨true, 200, "OK",
       some "application/json", Except.ok 42⟩),
     Choice.flight 0, Choice.flight 0, Choice.flight 0,
     Choice.caller 0, Choice.caller 1]
    _ _ rfl rfl (by decide) (by decide) rfl (by decide)
  exact h.1

/-- Witness for C3: same burst with a failing producer; the in-flight table
is clean at completion, both callers rejected with the same error, nothing
was cached, and the follow-up call starts a brand-new attempt. -/
theorem claim_C3_witness :
    (run ({ opts := ⟨100, id, none, true, true⟩, now := 0,
            mem := ⟨1000, false, [], []⟩, inFlight := [], flights := [],
            callers := [CallerPhase.start "k" ⟨none, none⟩,
                        CallerPhase.start "k" ⟨none, none⟩],
            netCount := 0, events := [] } : Config Nat)
      [Choice.caller 0, Choice.caller 1, Choice.caller 0, Choice.caller 1,
       Choice.deliverFlight 0 (NetOutcome.netFail "boom"),
       Choice.flight 0, Choice.caller 0, Choice.caller 1]).inFlight = [] ∧
    mapGet (run
      ({ opts := ⟨100, id, none, true, true⟩, now := 0,
         mem := ⟨1000, false, [], []⟩, inFlight := [], flights := [],
         callers := [CallerPhase.start "k" ⟨none, none⟩,
                     CallerPhase.start "k" ⟨none, none⟩],
         netCount := 0, events := [] } : Config Nat)
      [Choice.caller 0, Choice.caller 1, Choice.caller 0, Choice.caller 1,
       Choice.deliverFlight 0 (NetOutcome.netFail "boom"),
       Choice.flight 0, Choice.caller 0, Choice.caller 1]).mem.cache "k" = none := by
  have h := claim_C3 (⟨100, id, none, true, true⟩ : OrchOptions Nat) 0
    ⟨1000, false, [], []⟩ "k" [⟨none, none⟩, ⟨none, none⟩]
    [Choice.caller 0, Choice.caller 1, Choice.caller 0, Choice.caller 1,
     Choice.deliverFlight 0 (NetOutcome.netFail "boom"),
     Choice.flight 0, Choice.caller 0, Choice.caller 1]
    _ _ rfl rfl (by decide) (by decide) rfl (by decide)
  exact ⟨h.1, (h.2 (FetchError.network "boom") (by decide)).2.1⟩

/-- Witness for C2: a full store of capacity 1; inserting a fresh key evicts
the resident, inserting over the present key evicts nothing. -/
theorem claim_C2_witness :
    (applyOps (⟨1, true, [("a", ⟨7, 0, 10⟩)], ["a"]⟩ : MemStore Nat)
      [StoreOp.set "b" ⟨8, 0, 10⟩, StoreOp.get "b",
       StoreOp.set "c" ⟨9, 0, 10⟩]).cache.length ≤ 1 ∧
    ((⟨1, true, [("a", ⟨7, 0, 10⟩)], ["a"]⟩ : MemStore Nat).set "b" ⟨8, 0, 10⟩).2 =
      [("a", ⟨7, 0, 10⟩)] ∧
    ((⟨1, true, [("a", ⟨7, 0, 10⟩)], ["a"]⟩ : MemStore Nat).set "a" ⟨9, 0, 20⟩).2 =
      [] := by
  have h := claim_C2 (⟨1, true, [("a", ⟨7, 0, 10⟩)], ["a"]⟩ : MemStore Nat) 1
    "b" ⟨8, 0, 10⟩ rfl (by decide) ⟨List.Perm.refl _, by decide⟩ (by decide)
  have h' := claim_C2 (⟨1, true, [("a", ⟨7, 0, 10⟩)], ["a"]⟩ : MemStore Nat) 1
    "a" ⟨9, 0, 20⟩ rfl (by decide) ⟨List.Perm.refl _, by decide⟩ (by decide)
  refine ⟨h.1 _, ?_, (h'.2.2.1 (by decide)).1⟩
  obtain ⟨lru, rest, e, ho, hg, hev, -, -, -, -⟩ := h.2.1 (by decide) (by decide) rfl
  cases ho
  simp [mapGet] at hg
  rw [hev, hg]

/-- Witness for C4: a call that finds an expired entry deletes it and
proceeds as a miss; a call that finds a fresh entry returns it with a hit. -/
theorem claim_C4_witness :
    (∃ c', callerStep
      { opts := (⟨100, id, none, true, true⟩ : OrchOptions Nat),
        now := 50, mem := ⟨1000, false, [("k", ⟨7, 0, 10⟩)], ["k"]⟩,
        inFlight := [], flights := [],
        callers := [CallerPhase.afterGet "k" 100 "k" ⟨none, none⟩ (some ⟨7, 0, 10⟩)],
        netCount := 0, events := [] } 0 = some c' ∧
      c'.mem = ({ maxSize := 1000, onEvict := false,
                  cache := [("k", (⟨7, 0, 10⟩ : CacheEntry Nat))],
                  accessOrder := ["k"] } : MemStore Nat).delete "k") ∧
    (∃ c', callerStep
      { opts := (⟨100, id, none, true, true⟩ : OrchOptions Nat),
        now := 5, mem := ⟨1000, false, [("k", ⟨7, 0, 10⟩)], ["k"]⟩,
        inFlight := [], flights := [],
        callers := [CallerPhase.afterGet "k" 100 "k" ⟨none, none⟩ (some ⟨7, 0, 10⟩)],
        netCount := 0, events := [] } 0 = some c' ∧
      c'.callers = [CallerPhase.done (Except.ok 7)]) := by
  have h1 := (claim_C4
      { opts := (⟨100, id, none, true, true⟩ : OrchOptions Nat),
        now := 50, mem := ⟨1000, false, [("k", ⟨7, 0, 10⟩)], ["k"]⟩,
        inFlight := [], flights := [],
        callers := [CallerPhase.afterGet "k" 100 "k" ⟨none, none⟩ (some ⟨7, 0, 10⟩)],
        netCount := 0, events := [] } 0 "k" "k" 100 ⟨none, none⟩ ⟨7, 0, 10⟩ rfl).1
    (by decide)
  have h2 := (claim_C4
      { opts := (⟨100, id, none, true, true⟩ : OrchOptions Nat),
        now := 5, mem := ⟨1000, false, [("k", ⟨7, 0, 10⟩)], ["k"]⟩,
        inFlight := [], flights := [],
        callers := [CallerPhase.afterGet "k" 100 "k" ⟨none, none⟩ (some ⟨7, 0, 10⟩)],
        netCount := 0, events := [] } 0 "k" "k" 100 ⟨none, none⟩ ⟨7, 0, 10⟩ rfl).2
    (by decide) rfl
  obtain ⟨c', hs, hm, -⟩ := h1
  obtain ⟨c'', hs2, hcallers2, -⟩ := h2
  exact ⟨⟨c', hs, hm⟩, ⟨c'', hs2, by rw [hcallers2]; rfl⟩⟩

/-- Witness for C5: an invalid (zero) TTL override fails the call at once,
leaving the whole orchestrator state untouched. -/
theorem claim_C5_witness :
    ∃ c', callerStep
      { opts := (⟨100, id, none, true, true⟩ : OrchOptions Nat),
        now := 0, mem := ⟨1000, false, [], []⟩, inFlight := [], flights := [],
        callers := [CallerPhase.start "k" ⟨some (JSNum.num 0), none⟩],
        netCount := 0, events := [] } 0 = some c' ∧
      c'.callers = [CallerPhase.done (Except.error (FetchError.validation
        "timeToLive must be a positive finite number"))] ∧
      c'.netCount = 0 := by
  obtain ⟨c', hs, hcallers, hmem, hifl, hnc, -⟩ :=
    claim_C5
      { opts := (⟨100, id, none, true, true⟩ : OrchOptions Nat),
        now := 0, mem := ⟨1000, false, [], []⟩, inFlight := [], flights := [],
        callers := [CallerPhase.start "k" ⟨some (JSNum.num 0), none⟩],
        netCount := 0, events := [] } 0 "k" ⟨some (JSNum.num 0), none⟩
      (JSNum.num 0) rfl rfl (by decide)
  exact ⟨c', hs, by rw [hcallers]; rfl, hnc⟩

/-- Witness for C10: a POST with a zero TTL override still fails validation
and performs no network call. -/
theorem claim_C10_witness :
    ∃ c', callerStep
      { opts := (⟨100, id, none, true, true⟩ : OrchOptions Nat),
        now := 0, mem := ⟨1000, false, [], []⟩, inFlight := [], flights := [],
        callers := [CallerPhase.start "k" ⟨some (JSNum.num 0), some "POST"⟩],
        netCount := 0, events := [] } 0 = some c' ∧
      c'.callers = [CallerPhase.done (Except.error (FetchError.validation
        "timeToLive must be a positive finite number"))] ∧
      c'.netCount = 0 := by
  obtain ⟨c', hs, hcallers, hnc, -⟩ :=
    claim_C10
      { opts := (⟨100, id, none, true, true⟩ : OrchOptions Nat),
        now := 0, mem := ⟨1000, false, [], []⟩, inFlight := [], flights := [],
        callers := [CallerPhase.start "k" ⟨some (JSNum.num 0), some "POST"⟩],
        netCount := 0, events := [] } 0 "k" ⟨some (JSNum.num 0), some "POST"⟩
      (JSNum.num 0) "POST" rfl rfl (by decide) rfl (by decide)
  exact ⟨c', hs, by rw [hcallers]; rfl, hnc⟩

/-- Witness for C6: a POST bypasses the cache and performs its own network
call. -/
theorem claim_C6_witness :
    ∃ c', callerStep
      { opts := (⟨100, id, none, true, true⟩ : OrchOptions Nat),
        now := 0, mem := ⟨1000, false, [], []⟩, inFlight := [], flights := [],
        callers := [CallerPhase.start "k" ⟨none, some "post"⟩],
        netCount := 0, events := [] } 0 = some c' ∧
      c'.netCount = 1 ∧ c'.events = [] ∧
      c'.callers = [CallerPhase.awaitNetDirect "k" ⟨none, some "post"⟩] := by
  obtain ⟨c', hs, hmem, hifl, hev, hfl, hnc, hcallers, -, -⟩ :=
    claim_C6
      { opts := (⟨100, id, none, true, true⟩ : OrchOptions Nat),
        now := 0, mem := ⟨1000, false, [], []⟩, inFlight := [], flights := [],
        callers := [CallerPhase.start "k" ⟨none, some "post"⟩],
        netCount := 0, events := [] } 0 "k" ⟨none, some "post"⟩ "post" rfl rfl
      (by decide) (by intro t ht; cases ht)
  exact ⟨c', hs, hnc, hev, by rw [hcallers]; rfl⟩

/-- Witness for C8: a non-JSON body with a `text/html` content-type yields a
decode error mentioning the content-type and the JSON-only policy. -/
theorem claim_C8_witness :
    ∃ msg, parseJSON (⟨true, 200, "OK", some "text/html",
        Except.error "oops"⟩ : JSResponse Nat) = Except.error msg ∧
      ("This package only supports JSON responses").data <:+: msg.data ∧
      (∀ ct, (some "text/html" : Option String) = some ct → ct.data <:+: msg.data) ∧
      ((some "text/html" : Option String) = none → ("unknown").data <:+: msg.data) := by
  exact claim_C8 (⟨true, 200, "OK", some "text/html", Except.error "oops"⟩ :
    JSResponse Nat) "oops" rfl

/-- Witness for C9: concrete store and orchestrator states on which the
non-evicting operations report no `onEvictCallback` invocation. -/
theorem claim_C9_witness :
    (applyOp (⟨1, true, [("a", ⟨7, 0, 10⟩)], ["a"]⟩ : MemStore Nat)
      (StoreOp.delete "a")).2 = [] ∧
    ((⟨1, true, [("a", ⟨7, 0, 10⟩)], ["a"]⟩ : MemStore Nat).set "a" ⟨8, 0, 20⟩).2 =
      [] := by
  have h := claim_C9 (⟨1, true, [("a", ⟨7, 0, 10⟩)], ["a"]⟩ : MemStore Nat)
    "a" ⟨8, 0, 20⟩
  exact ⟨h.1, h.2.2.2.2.1 (by decide)⟩

end UnderratedFetch
